import Mathlib

/-!
Verification of the FINBench answer-resolution engine
(`lm_eval/tasks/finbench_v2/gen/utils.py` and `lm_eval/tasks/finbench/utils.py`).

The Python code is shallowly embedded: Python values are modelled by the
inductive `PyVal` (strings, ints, lists, dicts), documents by association
lists, fallible Python operations (`int(...)`, `.lower()` on a non-string,
ordering comparisons between incompatible types, `len` of an int) by
`Except String`.  Text-processing helpers operate on `List Char`.

Modelling notes, fixed once here:
* Python's `str.lower()` is Unicode-aware; `pyLowerChar` models it on the
  character repertoire the benchmark uses (ASCII plus the Latin-1 letters,
  which covers the Finnish å/ä/ö).  Characters outside that range are
  already caseless in every input considered here.
* `\w` of `re` (UNICODE flag) is modelled by `pyIsWordChar`: ASCII
  alphanumerics, underscore, and the Latin-1 letters (excluding the two
  Latin-1 math signs × and ÷, which Python also excludes from `\w`).
* `str.isdigit` accepts both decimal digits and `Numeric_Type=Digit`
  characters; on the Latin-1 repertoire that is ASCII `0-9` plus the
  superscripts `¹ ² ³`, while `int()` accepts only decimal digits — so
  an `isdigit`-true string such as `"²"` makes `int()` raise.
* `difflib.SequenceMatcher.ratio()` compares against the literal `0.80`
  in IEEE doubles; the model uses the exact rational 4/5.  The junk /
  autojunk machinery of `SequenceMatcher` is inert on the short strings
  involved here (autojunk only acts when the second string has length
  ≥ 200) and is not modelled.
-/

namespace FinBench

/-- A Python value, restricted to the shapes the engine manipulates:
strings, ints, lists and string-keyed dicts. -/
inductive PyVal where
  | str (s : String)
  | int (n : Int)
  | list (xs : List PyVal)
  | dict (xs : List (String × PyVal))
deriving Inhabited

/-- A Python document record: a string-keyed mapping. -/
abbrev PyDict := List (String × PyVal)

/-- `d[k]` lookup returning `none` when the key is absent. -/
def pyLookup? (d : PyDict) (k : String) : Option PyVal :=
  match d.find? (fun p => p.1 = k) with
  | some p => some p.2
  | none => none

/-- Python's `k in d` for a dict. -/
def pyHasKey (d : PyDict) (k : String) : Bool :=
  (pyLookup? d k).isSome

/-- Python truthiness for the modelled values. -/
def pyTruthy : PyVal → Bool
  | .str s => ¬ s.isEmpty
  | .int n => n ≠ 0
  | .list xs => ¬ xs.isEmpty
  | .dict xs => ¬ xs.isEmpty

/-- Python `len(v)`: defined for strings, lists and dicts; `TypeError`
for ints. -/
def pyLen : PyVal → Except String Nat
  | .str s => .ok s.length
  | .int _ => .error "TypeError: object of type int has no len"
  | .list xs => .ok xs.length
  | .dict xs => .ok xs.length

/-- Python `v[i]` for a valid non-negative index; `IndexError` out of
range, `TypeError` for non-subscriptable values. -/
def pyIndexNat : PyVal → Nat → Except String PyVal
  | .str s, i =>
    match s.data[i]? with
    | some c => .ok (.str (String.mk [c]))
    | none => .error "IndexError: string index out of range"
  | .list xs, i =>
    match xs[i]? with
    | some v => .ok v
    | none => .error "IndexError: list index out of range"
  | .int _, _ => .error "TypeError: int is not subscriptable"
  | .dict _, _ => .error "KeyError"

mutual

/-- Python `==` on the modelled values (never raises; values of different
types compare unequal). -/
def pyEq : PyVal → PyVal → Bool
  | .str a, .str b => a == b
  | .int a, .int b => a == b
  | .list as, .list bs => pyEqList as bs
  | .dict as, .dict bs => pyEqDict as bs
  | _, _ => false

/-- Elementwise `pyEq` on lists. -/
def pyEqList : List PyVal → List PyVal → Bool
  | [], [] => true
  | a :: as, b :: bs => pyEq a b && pyEqList as bs
  | _, _ => false

/-- Entrywise `pyEq` on dicts (the engine never compares dicts whose key
order differs, so positional comparison is adequate). -/
def pyEqDict : List (String × PyVal) → List (String × PyVal) → Bool
  | [], [] => true
  | (k, v) :: as, (l, w) :: bs => k == l && pyEq v w && pyEqDict as bs
  | _, _ => false

end

/-- Python's `needle in hay` on strings: `needle` occurs contiguously in
`hay` (the empty needle always occurs). -/
def isSubstring (needle hay : List Char) : Bool :=
  needle.isPrefixOf hay ||
    match hay with
    | [] => false
    | _ :: t => isSubstring needle t

/-- Python whitespace, as recognised by `str.split`/`str.strip` on the
ASCII range. -/
def isPySpace (c : Char) : Bool :=
  c = ' ' ∨ c = '\t' ∨ c = '\n' ∨ c = Char.ofNat 13 ∨ c = Char.ofNat 11 ∨
    c = Char.ofNat 12

/-- A non-empty run of decimal (ASCII) digits — the strings `int()`
accepts as its digit part.  (`int()` accepts Unicode category-Nd digits;
on the repertoire modelled here those are exactly the ASCII digits.) -/
def isAsciiDigits (l : List Char) : Bool :=
  ¬ l.isEmpty && l.all Char.isDigit

/-- Python `str.isdigit`: true for non-empty strings of digit-typed
characters.  Besides the decimal digits this includes characters with
`Numeric_Type=Digit`; on the Latin-1 repertoire modelled here those are
the superscripts ¹ (185), ² (178) and ³ (179).  Such characters satisfy
`isdigit` but are rejected by `int()`. -/
def pyIsDigit (l : List Char) : Bool :=
  ¬ l.isEmpty &&
    l.all (fun c => c.isDigit || c.toNat = 178 || c.toNat = 179 ||
      c.toNat = 185)

/-- Numeric value of a decimal digit string. -/
def digitsToNat (l : List Char) : Nat :=
  l.foldl (fun acc c => 10 * acc + (c.toNat - 48)) 0

/-- Python `int(s)` on a string: optional surrounding whitespace, optional
sign, then a non-empty run of decimal digits; anything else — including
`isdigit`-true superscripts like `"²"` — raises `ValueError` (returns
`none` here). -/
def pyIntParse (l : List Char) : Option Int :=
  let t := (((l.dropWhile isPySpace).reverse).dropWhile isPySpace).reverse
  match t with
  | [] => none
  | c :: ds =>
    if c = '-' then
      if isAsciiDigits ds then some (-(digitsToNat ds : Int)) else none
    else if c = '+' then
      if isAsciiDigits ds then some ((digitsToNat ds : Int)) else none
    else if isAsciiDigits (c :: ds) then some ((digitsToNat (c :: ds) : Int))
    else none

/-- Python `int(v)`: identity on ints, string parsing on strings (raising
`ValueError` on failure), `TypeError` otherwise. -/
def pyIntOf : PyVal → Except String Int
  | .int n => .ok n
  | .str s =>
    match pyIntParse s.data with
    | some n => .ok n
    | none => .error "ValueError: invalid literal for int()"
  | .list _ => .error "TypeError: int() argument must not be a list"
  | .dict _ => .error "TypeError: int() argument must not be a dict"

/-- `str.lower()` on the character repertoire used by the benchmark:
ASCII letters and the Latin-1 uppercase letters À–Þ (excluding ×), which
cover the Finnish Å/Ä/Ö. -/
def pyLowerChar (c : Char) : Char :=
  if 65 ≤ c.toNat ∧ c.toNat ≤ 90 then Char.ofNat (c.toNat + 32)
  else if 192 ≤ c.toNat ∧ c.toNat ≤ 222 ∧ c.toNat ≠ 215 then
    Char.ofNat (c.toNat + 32)
  else c

/-- `str.lower()` over a character list. -/
def lowerL (l : List Char) : List Char := l.map pyLowerChar

/-- `re`'s `\w` with the UNICODE flag, on the repertoire used here:
ASCII alphanumerics, underscore, and the Latin-1 letters (Python excludes
the math signs × and ÷ from `\w`). -/
def pyIsWordChar (c : Char) : Bool :=
  c.isAlphanum || c = '_' ||
    (0xC0 ≤ c.toNat && c.toNat ≤ 0xFF && c.toNat ≠ 0xD7 && c.toNat ≠ 0xF7)

/-- Strip characters satisfying `p` from both ends of a list
(Python `str.strip(chars)`). -/
def stripEnds (p : Char → Bool) (l : List Char) : List Char :=
  ((l.dropWhile p).reverse.dropWhile p).reverse

/-- The fixed punctuation set stripped by `normalize_text`
(`.strip('.,!?;:')`). -/
def isStripPunct (c : Char) : Bool :=
  c = '.' ∨ c = ',' ∨ c = '!' ∨ c = '?' ∨ c = ';' ∨ c = ':'

/-- Python `str.split()` (split on whitespace runs, no empty words),
written with an accumulator so that it is structurally recursive. -/
def splitWsAcc : List Char → List Char → List (List Char)
  | [], acc => if acc.isEmpty then [] else [acc.reverse]
  | c :: cs, acc =>
    if isPySpace c then
      if acc.isEmpty then splitWsAcc cs [] else acc.reverse :: splitWsAcc cs []
    else splitWsAcc cs (c :: acc)

/-- Python `str.split()`. -/
def splitWs (l : List Char) : List (List Char) := splitWsAcc l []

/-- Python `' '.join(words)`. -/
def joinSpace : List (List Char) → List Char
  | [] => []
  | [w] => w
  | w :: ws => w ++ ' ' :: joinSpace ws

/-- `normalize_text` from `extract_and_validate`: lowercase, strip
whitespace then the punctuation set from both ends, collapse whitespace
runs to single spaces (`' '.join(text.split())`). -/
def normalize_text (l : List Char) : List Char :=
  joinSpace (splitWs (stripEnds isStripPunct (stripEnds isPySpace (lowerL l))))

/-- `strip_special_chars` from `extract_and_validate`:
`re.sub(r'[^\w\s]', '', text)` — keep only word and whitespace
characters. -/
def strip_special_chars (l : List Char) : List Char :=
  l.filter (fun c => pyIsWordChar c || isPySpace c)

/-- Length of the common prefix of two character lists. -/
def commonPrefixLen : List Char → List Char → Nat
  | a :: as, b :: bs => if a = b then commonPrefixLen as bs + 1 else 0
  | _, _ => 0

/-- Longest matching block between `a` and `b`
(`difflib.SequenceMatcher.find_longest_match` with no junk): the triple
`(i, j, size)` of maximal `size`, ties broken by smallest `i`, then
smallest `j`; `(0, 0, 0)` when there is no common character. -/
def longestMatch (a b : List Char) : Nat × Nat × Nat :=
  (List.range a.length).foldl
    (fun best i =>
      (List.range b.length).foldl
        (fun best j =>
          let k := commonPrefixLen (a.drop i) (b.drop j)
          if k > best.2.2 then (i, j, k) else best)
        best)
    (0, 0, 0)

/-- Total size of the matching blocks of `SequenceMatcher`
(Ratcliff/Obershelp): recursively take the longest matching block and
recurse on both sides.  `fuel ≥ a.length + b.length` always suffices,
since each recursive call strictly shrinks the combined length. -/
def matchTotalF : Nat → List Char → List Char → Nat
  | 0, _, _ => 0
  | fuel + 1, a, b =>
    let ijk := longestMatch a b
    let i := ijk.1
    let j := ijk.2.1
    let k := ijk.2.2
    if k = 0 then 0
    else
      k + matchTotalF fuel (a.take i) (b.take j) +
        matchTotalF fuel (a.drop (i + k)) (b.drop (j + k))

/-- Total matched characters between `a` and `b`. -/
def matchTotal (a b : List Char) : Nat :=
  matchTotalF (a.length + b.length) a b

/-- `SequenceMatcher(None, a, b).ratio() >= 0.80`, with the threshold as
the exact rational 4/5: `2·M/(|a|+|b|) ≥ 4/5 ↔ 10·M ≥ 4·(|a|+|b|)`
(`ratio` of two empty strings is defined as 1.0, which qualifies). -/
def fuzzyQualifies (a b : List Char) : Bool :=
  let L := a.length + b.length
  if L = 0 then true else 10 * matchTotal a b ≥ 4 * L

/-- `re.findall(r'\*\*([^*]+)\*\*', line)`: all non-overlapping bold
spans, scanning left to right; on a failed opening the scan advances one
character, exactly as the regex engine does. -/
def boldSpansF : Nat → List Char → List (List Char)
  | 0, _ => []
  | fuel + 1, l =>
    match l with
    | '*' :: '*' :: rest =>
      let span := rest.takeWhile (fun c => c ≠ '*')
      let rest2 := rest.dropWhile (fun c => c ≠ '*')
      if ¬ span.isEmpty && ['*', '*'].isPrefixOf rest2 then
        span :: boldSpansF fuel (rest2.drop 2)
      else boldSpansF fuel ('*' :: rest)
    | _ :: cs => boldSpansF fuel cs
    | [] => []

/-- Bold spans of a line. -/
def boldSpans (l : List Char) : List (List Char) := boldSpansF l.length l

/-- The stem of a choice (`choice.lower()[:max(4, len(choice)-3)]`). -/
def stemOf (choice : List Char) : List Char :=
  (lowerL choice).take (max 4 (choice.length - 3))

/-- Is the character at position `p` (if any) a word character? -/
def isWordAt (line : List Char) (p : Nat) : Bool :=
  match line.drop p with
  | c :: _ => pyIsWordChar c
  | [] => false

/-- `\b` of `re` at position `p` of `line`: exactly one side of the
position is a word character. -/
def boundaryAt (line : List Char) (p : Nat) : Bool :=
  (if p = 0 then false else isWordAt line (p - 1)) != isWordAt line p

/-- `re.search(r'\b' + re.escape(stem), line)`: the stem occurs at some
word boundary. -/
def stemSearch (stem line : List Char) : Bool :=
  (List.range (line.length + 1)).any
    (fun p => boundaryAt line p && stem.isPrefixOf (line.drop p))

/-! ## SchemaResolver: `get_choices_from_doc` and `get_target_from_doc` -/

/-- Strategies 3–6 of `get_choices_from_doc` (belebele `mc_answer1..4`,
`multiple_choice_targets`, `mc1_targets`/`mc2_targets`, fallback field
names), reached when the `"choices"` field is absent or has neither a
list nor a `text`-carrying dict shape. -/
def getChoicesRest (doc : PyDict) : PyVal :=
  if pyHasKey doc "mc_answer1" && pyHasKey doc "mc_answer2" &&
      pyHasKey doc "mc_answer3" && pyHasKey doc "mc_answer4" then
    .list [((pyLookup? doc "mc_answer1").getD (.list [])),
      ((pyLookup? doc "mc_answer2").getD (.list [])),
      ((pyLookup? doc "mc_answer3").getD (.list [])),
      ((pyLookup? doc "mc_answer4").getD (.list []))]
  else
    match pyLookup? doc "multiple_choice_targets" with
    | some (.list xs) => .list xs
    | _ =>
      match pyLookup? doc "mc1_targets" with
      | some (.dict m) =>
        match pyLookup? m "choices" with
        | some v => v
        | none => getChoicesMc2 doc
      | _ => getChoicesMc2 doc
where
  /-- The `mc2_targets` check and the `options`/`answers`/`alternatives`
  fallback. -/
  getChoicesMc2 (doc : PyDict) : PyVal :=
    match pyLookup? doc "mc2_targets" with
    | some (.dict m) =>
      match pyLookup? m "choices" with
      | some v => v
      | none => getChoicesFallback doc
    | _ => getChoicesFallback doc
  /-- Fallback field names `options`, `answers`, `alternatives` (first
  list-valued one wins), else the empty list. -/
  getChoicesFallback (doc : PyDict) : PyVal :=
    match pyLookup? doc "options" with
    | some (.list xs) => .list xs
    | _ =>
      match pyLookup? doc "answers" with
      | some (.list xs) => .list xs
      | _ =>
        match pyLookup? doc "alternatives" with
        | some (.list xs) => .list xs
        | _ => .list []

/-- `get_choices_from_doc`: schema-aware choice extraction.  A present
list-valued `"choices"` field is returned as-is (even when empty); a
dict-valued `"choices"` with a `"text"` key returns that sub-value;
otherwise the remaining strategies run in order.  Returns the Python
value the function returns (usually a list; `[]` when nothing is
found). -/
def get_choices_from_doc (doc : PyDict) : PyVal :=
  match pyLookup? doc "choices" with
  | some (.list xs) => .list xs
  | some (.dict c) =>
    match pyLookup? c "text" with
    | some v => v
    | none => getChoicesRest doc
  | _ => getChoicesRest doc

/-- The bounds-checked index lookup used by every index-based target
strategy: `if choices and 0 <= idx < len(choices): return choices[idx]`.
Python's chained comparison evaluates `0 <= idx` before calling `len`,
so a falsy `choices` or a negative index short-circuits without
raising. -/
def idxLookup (choices : PyVal) (idx : Int) : Except String (Option PyVal) :=
  if pyTruthy choices then
    if 0 ≤ idx then do
      let n ← pyLen choices
      if idx < (n : Int) then do
        let t ← pyIndexNat choices idx.toNat
        pure (some t)
      else pure none
    else pure none
  else pure none

/-- Python `x in container` as used on `labels`: list membership by
`==`; substring test for strings (`TypeError` when the left operand is
not a string); dict key membership; `TypeError` for ints and unhashable
keys. -/
def pyContains (container x : PyVal) : Except String Bool :=
  match container with
  | .list xs => .ok (xs.any (fun v => pyEq v x))
  | .str s =>
    match x with
    | .str t => .ok (isSubstring t.data s.data)
    | _ => .error "TypeError: in <string> requires string as left operand"
  | .dict m =>
    match x with
    | .str k => .ok (pyHasKey m k)
    | .int _ => .ok false
    | _ => .error "TypeError: unhashable type"
  | .int _ => .error "TypeError: argument of type int is not iterable"

/-- `labels.index(x)` for a list (first position where `==` holds). -/
def pyListIndexOf (xs : List PyVal) (x : PyVal) : Nat :=
  xs.findIdx (fun v => pyEq v x)

/-- `hay.index(needle)` for strings: position of the first occurrence
(only used after a successful membership test). -/
def subIndexOf (needle hay : List Char) : Nat :=
  if needle.isPrefixOf hay then 0
  else
    match hay with
    | [] => 0
    | _ :: t => subIndexOf needle t + 1

/-- Target strategy "truthfulqa": when `mc1_targets` or `mc2_targets` is
present, the first choice is correct (`if choices and len(choices) >
0`). -/
def tgtMc (doc : PyDict) (choices : PyVal) : Except String (Option PyVal) :=
  if pyHasKey doc "mc1_targets" || pyHasKey doc "mc2_targets" then
    if pyTruthy choices then do
      let n ← pyLen choices
      if n > 0 then do
        let t ← pyIndexNat choices 0
        pure (some t)
      else pure none
    else pure none
  else pure none

/-- Target strategy "belebele": `correct_answer_num`, 1-indexed, via
`int(answer_num) - 1` (which raises for non-numeric strings). -/
def tgtCorrectAnswerNum (doc : PyDict) (choices : PyVal) :
    Except String (Option PyVal) :=
  match pyLookup? doc "correct_answer_num" with
  | some v => do
    let n ← pyIntOf v
    match ← idxLookup choices (n - 1) with
    | some t => pure (some t)
    | none => tgtMc doc choices
  | none => tgtMc doc choices

/-- Target strategy "arc_c": `answerKey` resolved to an index through
`doc["choices"]["label"]`. -/
def tgtAnswerKey (doc : PyDict) (choices : PyVal) :
    Except String (Option PyVal) :=
  match pyLookup? doc "answerKey" with
  | some ak =>
    match pyLookup? doc "choices" with
    | some (.dict c) =>
      match pyLookup? c "label" with
      | some labels => do
        if ← pyContains labels ak then
          let i ← (match labels, ak with
            | .list xs, _ => Except.ok (pyListIndexOf xs ak)
            | .str s, .str t => Except.ok (subIndexOf t.data s.data)
            | _, _ => Except.error "AttributeError: no attribute index")
          match ← idxLookup choices (i : Int) with
          | some t => pure (some t)
          | none => tgtCorrectAnswerNum doc choices
        else tgtCorrectAnswerNum doc choices
      | none => tgtCorrectAnswerNum doc choices
    | _ => tgtCorrectAnswerNum doc choices
  | none => tgtCorrectAnswerNum doc choices

/-- Target strategy "sib200": `answer_idx`, converted with `int` when it
is a string (raising for non-numeric strings), then bounds-checked.  A
non-int, non-str value reaches the chained comparison `0 <= idx`, which
raises unless `choices` is falsy. -/
def tgtAnswerIdx (doc : PyDict) (choices : PyVal) :
    Except String (Option PyVal) :=
  match pyLookup? doc "answer_idx" with
  | some v => do
    let idx ← (match v with
      | .str s =>
        match pyIntParse s.data with
        | some n => Except.ok (PyVal.int n)
        | none => Except.error "ValueError: invalid literal for int()"
      | w => Except.ok w)
    let r ← (match idx with
      | .int n => idxLookup choices n
      | _ =>
        if pyTruthy choices then
          Except.error "TypeError: int and non-int are not comparable"
        else Except.ok none)
    match r with
    | some t => pure (some t)
    | none => tgtAnswerKey doc choices
  | none => tgtAnswerKey doc choices

/-- Target strategy "goldenswag/sib200 label": integer-typed `label`
used as a 0-based index. -/
def tgtLabel (doc : PyDict) (choices : PyVal) :
    Except String (Option PyVal) :=
  match pyLookup? doc "label" with
  | some (.int n) => do
    match ← idxLookup choices n with
    | some t => pure (some t)
    | none => tgtAnswerIdx doc choices
  | _ => tgtAnswerIdx doc choices

/-- Target strategy "goldenswag": integer-typed `gold` used as a 0-based
index. -/
def tgtGoldInt (doc : PyDict) (choices : PyVal) :
    Except String (Option PyVal) :=
  match pyLookup? doc "gold" with
  | some (.int n) => do
    match ← idxLookup choices n with
    | some t => pure (some t)
    | none => tgtLabel doc choices
  | _ => tgtLabel doc choices

/-- Target strategy "scandisent": string-typed `gold`; an
`isdigit`-true string is converted with `int()` — which raises
`ValueError` for digit-typed non-decimal characters such as `"²"` — and
used as a 0-based index (falling through when out of bounds); any other
string is the answer word itself. -/
def tgtGoldStr (doc : PyDict) (choices : PyVal) :
    Except String (Option PyVal) :=
  match pyLookup? doc "gold" with
  | some (.str s) =>
    if pyIsDigit s.data then do
      let n ← (match pyIntParse s.data with
        | some n => Except.ok n
        | none => Except.error "ValueError: invalid literal for int()")
      match ← idxLookup choices n with
      | some t => pure (some t)
      | none => tgtGoldInt doc choices
    else pure (some (.str s))
  | _ => tgtGoldInt doc choices

/-- `get_target_from_doc`: schema-aware target extraction, trying the
strategies in the source's order: `targets[0]`, string `gold`, int
`gold`, int `label`, `answer_idx`, `answerKey`, `correct_answer_num`,
`mc1_targets`/`mc2_targets`, else `None`. -/
def get_target_from_doc (doc : PyDict) (choices : PyVal) :
    Except String (Option PyVal) :=
  match pyLookup? doc "targets" with
  | some (.list (t :: _)) => pure (some t)
  | _ => tgtGoldStr doc choices

/-! ## MatchCascade: the six matching strategies of `extract_and_validate` -/

/-- The strategy tags tracked in `strategy_stats`. -/
inductive Strat where
  | substring_match
  | normalized_exact
  | stripped_special
  | fuzzy_80
  | bold_match
  | stem_match
deriving Repr, DecidableEq

/-- The invalid-classification reasons. -/
inductive Reason where
  | empty_response
  | no_choices
  | no_target
  | unparseable
deriving Repr, DecidableEq

/-- The classified outcome of one response. -/
inductive Outcome where
  | correct (choice : String) (strat : Strat)
  | wrong (choice : String) (strat : Strat)
  | invalid (r : Reason)
deriving Repr, DecidableEq

/-- Iterating a Python value with `for`: list elements, string
characters, dict keys; `TypeError` for ints. -/
def pyIter : PyVal → Except String (List PyVal)
  | .list xs => .ok xs
  | .str s => .ok (s.data.map (fun c => .str (String.mk [c])))
  | .dict m => .ok (m.map (fun p => .str p.1))
  | .int _ => .error "TypeError: int is not iterable"

/-- Strategy 1, substring: `if choice and choice.lower() in
first_line_lower` (a truthy non-string choice raises at `.lower()`). -/
def strat1 (lineLower : List Char) : List PyVal → Except String (Option String)
  | [] => .ok none
  | c :: cs =>
    if pyTruthy c then
      match c with
      | .str s =>
        if isSubstring (lowerL s.data) lineLower then .ok (some s)
        else strat1 lineLower cs
      | _ => .error "AttributeError: no attribute lower"
    else strat1 lineLower cs

/-- Strategy 2, normalized exact: `normalize_text(choice) ==
first_line_normalized`. -/
def strat2 (lineNorm : List Char) : List PyVal → Except String (Option String)
  | [] => .ok none
  | c :: cs =>
    if pyTruthy c then
      match c with
      | .str s =>
        if lineNorm = normalize_text s.data then .ok (some s)
        else strat2 lineNorm cs
      | _ => .error "AttributeError: no attribute lower"
    else strat2 lineNorm cs

/-- Strategy 3, stripped exact: special characters removed on both
sides. -/
def strat3 (lineStripped : List Char) :
    List PyVal → Except String (Option String)
  | [] => .ok none
  | c :: cs =>
    if pyTruthy c then
      match c with
      | .str s =>
        if lineStripped = strip_special_chars (normalize_text s.data) then
          .ok (some s)
        else strat3 lineStripped cs
      | _ => .error "AttributeError: no attribute lower"
    else strat3 lineStripped cs

/-- Strategy 4, fuzzy: `SequenceMatcher` ratio at least 0.80 against the
normalized line. -/
def strat4 (lineNorm : List Char) : List PyVal → Except String (Option String)
  | [] => .ok none
  | c :: cs =>
    if pyTruthy c then
      match c with
      | .str s =>
        if fuzzyQualifies lineNorm (normalize_text s.data) then .ok (some s)
        else strat4 lineNorm cs
      | _ => .error "AttributeError: no attribute lower"
    else strat4 lineNorm cs

/-- Does a bold span qualify a (string) choice: equal lowercased, or the
span starts with the choice's stem? -/
def boldQualifies (bw : List Char) (s : List Char) : Bool :=
  lowerL bw = lowerL s || (stemOf s).isPrefixOf (lowerL bw)

/-- Inner loop of strategy 5 for one bold span: scan the choices, guard
`if choice and len(choice) >= 4` (a truthy int choice raises at `len`, a
truthy non-string of length ≥ 4 raises at `.lower()`). -/
def strat5One (bw : List Char) : List PyVal → Except String (Option String)
  | [] => .ok none
  | c :: cs =>
    if pyTruthy c then do
      let n ← pyLen c
      if n ≥ 4 then
        match c with
        | .str s =>
          if boldQualifies bw s.data then .ok (some s) else strat5One bw cs
        | _ => .error "AttributeError: no attribute lower"
      else strat5One bw cs
    else strat5One bw cs

/-- Strategy 5, bold emphasis: for each extracted span (outer loop), for
each choice (inner loop). -/
def strat5 (choices : List PyVal) :
    List (List Char) → Except String (Option String)
  | [] => .ok none
  | bw :: bws => do
    match ← strat5One bw choices with
    | some s => pure (some s)
    | none => strat5 choices bws

/-- Strategy 6, stem/inflection: the choice's stem occurs at a word
boundary in the lowercased line. -/
def strat6 (lineLower : List Char) : List PyVal → Except String (Option String)
  | [] => .ok none
  | c :: cs =>
    if pyTruthy c then do
      let n ← pyLen c
      if n ≥ 4 then
        match c with
        | .str s =>
          if stemSearch (stemOf s.data) lineLower then .ok (some s)
          else strat6 lineLower cs
        | _ => .error "AttributeError: no attribute lower"
      else strat6 lineLower cs
    else strat6 lineLower cs

/-- The full cascade over the (already stripped) first line: strategies
in the source's fixed order, first success wins. -/
def matchCascade (firstLine : List Char) (choices : List PyVal) :
    Except String (Option (String × Strat)) := do
  let lineLower := lowerL firstLine
  let lineNorm := normalize_text firstLine
  let lineStripped := strip_special_chars lineNorm
  match ← strat1 lineLower choices with
  | some s => pure (some (s, .substring_match))
  | none =>
    match ← strat2 lineNorm choices with
    | some s => pure (some (s, .normalized_exact))
    | none =>
      match ← strat3 lineStripped choices with
      | some s => pure (some (s, .stripped_special))
      | none =>
        match ← strat4 lineNorm choices with
        | some s => pure (some (s, .fuzzy_80))
        | none =>
          match ← strat5 choices (boldSpans firstLine) with
          | some s => pure (some (s, .bold_match))
          | none =>
            match ← strat6 lineLower choices with
            | some s => pure (some (s, .stem_match))
            | none => pure none

/-! ## AnswerResolver: classification, statistics and the filter -/

/-- Truthiness of `get_target_from_doc`'s result (`if not target`). -/
def pyTruthyOpt : Option PyVal → Bool
  | none => false
  | some v => pyTruthy v

/-- The first line of a response: text before the first newline,
stripped (`resp.split('\n')[0].strip()`). -/
def firstLineOf (resp : String) : List Char :=
  stripEnds isPySpace (resp.data.takeWhile (fun c => c ≠ '\n'))

/-- Classify one (response, document) pair, following
`extract_and_validate` of `FINBenchV2AnswerFilter`: empty response, then
choice resolution, then target resolution, then the cascade; on a match
the correctness comparison is `choice.lower() == target.lower()`
(raising when the target is a truthy non-string). -/
def classify (resp : String) (doc : PyDict) : Except String Outcome := do
  if (stripEnds isPySpace resp.data).isEmpty then
    pure (.invalid .empty_response)
  else
    let allChoices := get_choices_from_doc doc
    if ¬ pyTruthy allChoices then pure (.invalid .no_choices)
    else do
      let target ← get_target_from_doc doc allChoices
      if ¬ pyTruthyOpt target then pure (.invalid .no_target)
      else do
        let chs ← pyIter allChoices
        match ← matchCascade (firstLineOf resp) chs with
        | some (s, strat) =>
          match target with
          | some (.str t) =>
            if lowerL s.data = lowerL t.data then pure (.correct s strat)
            else pure (.wrong s strat)
          | _ => .error "AttributeError: no attribute lower"
        | none => pure (.invalid .unparseable)

/-- The mutable counter dict `self.stats` of `FINBenchV2AnswerFilter`
(field names as in the source). -/
structure Stats where
  total : Nat
  correct : Nat
  wrong : Nat
  invalid : Nat
  empty_response : Nat
  no_target : Nat
  no_choices : Nat
  schema_detection_failed : Nat
deriving Repr, DecidableEq

/-- The counters as initialised in `__init__`. -/
def Stats.init : Stats := ⟨0, 0, 0, 0, 0, 0, 0, 0⟩

/-- The mutable counter dict `self.strategy_stats`. -/
structure StratStats where
  substring_match : Nat
  normalized_exact : Nat
  stripped_special : Nat
  fuzzy_80 : Nat
  bold_match : Nat
  stem_match : Nat
  failed : Nat
deriving Repr, DecidableEq

/-- `strategy_stats` as initialised in `__init__`. -/
def StratStats.init : StratStats := ⟨0, 0, 0, 0, 0, 0, 0⟩

/-- The `self.stats` increments performed on one outcome (the `total`
increment at the top of `extract_and_validate` plus the branch's
increments). -/
def updStats (st : Stats) : Outcome → Stats
  | .correct _ _ => { st with total := st.total + 1, correct := st.correct + 1 }
  | .wrong _ _ => { st with total := st.total + 1, wrong := st.wrong + 1 }
  | .invalid .empty_response =>
    { st with
      total := st.total + 1
      invalid := st.invalid + 1
      empty_response := st.empty_response + 1 }
  | .invalid .no_choices =>
    { st with
      total := st.total + 1
      invalid := st.invalid + 1
      no_choices := st.no_choices + 1 }
  | .invalid .no_target =>
    { st with
      total := st.total + 1
      invalid := st.invalid + 1
      no_target := st.no_target + 1 }
  | .invalid .unparseable =>
    { st with total := st.total + 1, invalid := st.invalid + 1 }

/-- One bump of a strategy counter. -/
def bumpStrat (ss : StratStats) : Strat → StratStats
  | .substring_match => { ss with substring_match := ss.substring_match + 1 }
  | .normalized_exact => { ss with normalized_exact := ss.normalized_exact + 1 }
  | .stripped_special => { ss with stripped_special := ss.stripped_special + 1 }
  | .fuzzy_80 => { ss with fuzzy_80 := ss.fuzzy_80 + 1 }
  | .bold_match => { ss with bold_match := ss.bold_match + 1 }
  | .stem_match => { ss with stem_match := ss.stem_match + 1 }

/-- The `self.strategy_stats` increments performed on one outcome (every
invalid branch bumps `failed`). -/
def updStratStats (ss : StratStats) : Outcome → StratStats
  | .correct _ strat => bumpStrat ss strat
  | .wrong _ strat => bumpStrat ss strat
  | .invalid _ => { ss with failed := ss.failed + 1 }

/-- The string `extract_and_validate` returns for an outcome: the found
choice, or the empty string for any invalid outcome. -/
def outcomeStr : Outcome → String
  | .correct s _ => s
  | .wrong s _ => s
  | .invalid _ => ""

/-- `extract_and_validate` with its statistics side effects made
explicit: returns the extracted string and the updated counters.  (On an
exception the counters die with the run, so they are not returned.) -/
def extract_and_validate (st : Stats) (ss : StratStats) (resp : String)
    (doc : PyDict) : Except String (String × Stats × StratStats) := do
  let o ← classify resp doc
  pure (outcomeStr o, updStats st o, updStratStats ss o)

/-- The inner loop of `FINBenchV2AnswerFilter.apply` for one document:
process each response in order, threading the counters. -/
def applyDoc (st : Stats) (ss : StratStats) (doc : PyDict) :
    List String → Except String (List String × Stats × StratStats)
  | [] => .ok ([], st, ss)
  | r :: rs => do
    let (s, st2, ss2) ← extract_and_validate st ss r doc
    let (out, st3, ss3) ← applyDoc st2 ss2 doc rs
    pure (s :: out, st3, ss3)

/-- `FINBenchV2AnswerFilter.apply` on a zipped batch of (response list,
document) pairs. -/
def applyZipped (st : Stats) (ss : StratStats) :
    List (List String × PyDict) →
      Except String (List (List String) × Stats × StratStats)
  | [] => .ok ([], st, ss)
  | (rs, doc) :: rest => do
    let (out, st2, ss2) ← applyDoc st ss doc rs
    let (outs, st3, ss3) ← applyZipped st2 ss2 rest
    pure (out :: outs, st3, ss3)

/-- `FINBenchV2AnswerFilter.apply`: `for resp_list, doc in zip(resps,
docs)`. -/
def applyFilter (st : Stats) (ss : StratStats) (resps : List (List String))
    (docs : List PyDict) :
    Except String (List (List String) × Stats × StratStats) :=
  applyZipped st ss (resps.zip docs)

/-! ## The v1 engine (`finbench/utils.py`, `FINBenchAnswerFilter`) -/

/-- The `self.stats` dict of the v1 `FINBenchAnswerFilter`. -/
structure StatsV1 where
  total : Nat
  correct : Nat
  wrong : Nat
  invalid : Nat
  empty_response : Nat
  no_target : Nat
deriving Repr, DecidableEq

/-- The v1 counters as initialised in `__init__`. -/
def StatsV1.init : StatsV1 := ⟨0, 0, 0, 0, 0, 0⟩

/-- Classify one (response, document) pair following the v1
`extract_and_validate`: the target is `doc.get("targets", [""])[0]`, the
choices are `doc.get("multiple_choice_targets", [])`, and the cascade is
the same six-strategy cascade as v2 (no empty-choices check). -/
def classifyV1 (resp : String) (doc : PyDict) : Except String Outcome := do
  if (stripEnds isPySpace resp.data).isEmpty then
    pure (.invalid .empty_response)
  else do
    let targets := (pyLookup? doc "targets").getD (.list [.str ""])
    let target ← pyIndexNat targets 0
    if ¬ pyTruthy target then pure (.invalid .no_target)
    else do
      let allChoices := (pyLookup? doc "multiple_choice_targets").getD (.list [])
      let chs ← pyIter allChoices
      match ← matchCascade (firstLineOf resp) chs with
      | some (s, strat) =>
        match target with
        | .str t =>
          if lowerL s.data = lowerL t.data then pure (.correct s strat)
          else pure (.wrong s strat)
        | _ => .error "AttributeError: no attribute lower"
      | none => pure (.invalid .unparseable)

/-- The v1 `self.stats` increments for one outcome.  Unlike v2, `total`
is bumped only inside the match branches and the unparseable branch: the
`empty_response` and `no_target` branches bump `invalid` without
bumping `total`. -/
def updStatsV1 (st : StatsV1) : Outcome → StatsV1
  | .correct _ _ => { st with total := st.total + 1, correct := st.correct + 1 }
  | .wrong _ _ => { st with total := st.total + 1, wrong := st.wrong + 1 }
  | .invalid .empty_response =>
    { st with
      invalid := st.invalid + 1
      empty_response := st.empty_response + 1 }
  | .invalid .no_target =>
    { st with
      invalid := st.invalid + 1
      no_target := st.no_target + 1 }
  | .invalid .no_choices => st
  | .invalid .unparseable =>
    { st with total := st.total + 1, invalid := st.invalid + 1 }

/-- The v1 `extract_and_validate` with its statistics made explicit.
(`Outcome.invalid .no_choices` can never arise from `classifyV1`.) -/
def extractV1 (st : StatsV1) (resp : String) (doc : PyDict) :
    Except String (String × StatsV1) := do
  let o ← classifyV1 resp doc
  pure (outcomeStr o, updStatsV1 st o)

/-! ## The cascade as the specification words it

For the priority-order claim the cascade is restated, from the spec's
words, as six per-strategy qualifiers scanned with `List.find?` and
combined by first success.  The refinement theorem below proves the
embedded code equal to this form on string choice lists. -/

/-- Spec strategy 1: the (truthy) choice occurs case-insensitively in
the first line. -/
def qualSub (lineLower : List Char) (s : String) : Bool :=
  ¬ s.isEmpty && isSubstring (lowerL s.data) lineLower

/-- Spec strategy 2: normalized-exact equality. -/
def qualNorm (lineNorm : List Char) (s : String) : Bool :=
  ¬ s.isEmpty && lineNorm == normalize_text s.data

/-- Spec strategy 3: stripped-exact equality. -/
def qualStrip (lineStripped : List Char) (s : String) : Bool :=
  ¬ s.isEmpty && lineStripped == strip_special_chars (normalize_text s.data)

/-- Spec strategy 4: similarity ratio at least 0.80. -/
def qualFuzzy (lineNorm : List Char) (s : String) : Bool :=
  ¬ s.isEmpty && fuzzyQualifies lineNorm (normalize_text s.data)

/-- Spec strategy 5, for one bold span: length-≥-4 choice equal to the
span or whose stem starts the span. -/
def qualBold (bw : List Char) (s : String) : Bool :=
  ¬ s.isEmpty && decide (4 ≤ s.length) && boldQualifies bw s.data

/-- Spec strategy 6: the stem of a length-≥-4 choice occurs at a word
boundary in the line. -/
def qualStem (lineLower : List Char) (s : String) : Bool :=
  ¬ s.isEmpty && decide (4 ≤ s.length) &&
    stemSearch (stemOf s.data) lineLower

/-- The match cascade as described in the spec: strategies tried in the
fixed priority order, each scanning the choice list with `List.find?`;
the first strategy that finds a qualifying choice wins. -/
def cascadeSpec (firstLine : List Char) (chs : List String) :
    Option (String × Strat) :=
  let lineLower := lowerL firstLine
  let lineNorm := normalize_text firstLine
  let lineStripped := strip_special_chars lineNorm
  match chs.find? (qualSub lineLower) with
  | some s => some (s, .substring_match)
  | none =>
    match chs.find? (qualNorm lineNorm) with
    | some s => some (s, .normalized_exact)
    | none =>
      match chs.find? (qualStrip lineStripped) with
      | some s => some (s, .stripped_special)
      | none =>
        match chs.find? (qualFuzzy lineNorm) with
        | some s => some (s, .fuzzy_80)
        | none =>
          match (boldSpans firstLine).findSome?
              (fun bw => chs.find? (qualBold bw)) with
          | some s => some (s, .bold_match)
          | none =>
            match chs.find? (qualStem lineLower) with
            | some s => some (s, .stem_match)
            | none => none

/-- `l` contains no character from the punctuation set stripped by
`normalize_text`. -/
def punctFree (l : List Char) : Bool :=
  l.all (fun c => ¬ isStripPunct c)

/-! ## Theorems -/

set_option maxRecDepth 8000

/-- The bounds-checked lookup yields no target for any out-of-range
index. -/
theorem idxLookup_oob (cs : List PyVal) (k : Int)
    (hk : k < 0 ∨ (cs.length : Int) ≤ k) :
    idxLookup (PyVal.list cs) k = .ok none := by
  unfold idxLookup
  rcases hk with hk | hk
  · by_cases hc : pyTruthy (PyVal.list cs)
    · simp [hc, show ¬ (0 ≤ k) from by omega, pure, Except.pure]
    · simp [hc, pure, Except.pure]
  · by_cases hc : pyTruthy (PyVal.list cs)
    · by_cases h0 : (0 : Int) ≤ k
      · simp [hc, h0, pyLen, show ¬ (k < (cs.length : Int)) from by omega,
          pure, Except.pure, bind, Except.bind]
      · simp [hc, h0, pure, Except.pure]
    · simp [hc, pure, Except.pure]

/-- A list none of whose characters satisfies `p` is unchanged by
`dropWhile p`. -/
theorem dropWhile_eq_self_of_all (p : Char → Bool) (l : List Char)
    (h : ∀ c ∈ l, p c = false) : l.dropWhile p = l := by
  match l with
  | [] => rfl
  | a :: l2 => rw [List.dropWhile_cons_of_neg (by simp [h a (by simp)])]

/-- Decimal digits are not whitespace. -/
theorem isDigit_not_space (c : Char) (h : c.isDigit = true) :
    isPySpace c = false := by
  simp only [isPySpace, decide_eq_false_iff_not]
  rintro (rfl | rfl | rfl | rfl | rfl | rfl) <;> exact absurd h (by decide)

/-- Strings of ASCII digits satisfy Python `str.isdigit`. -/
theorem isAsciiDigits_pyIsDigit (l : List Char) (h : isAsciiDigits l = true) :
    pyIsDigit l = true := by
  obtain ⟨hne, hall⟩ : ¬ l.isEmpty = true ∧ ∀ c ∈ l, c.isDigit = true := by
    simpa [isAsciiDigits] using h
  simp only [pyIsDigit, Bool.and_eq_true, List.all_eq_true]
  refine ⟨by simpa using hne, ?_⟩
  intro c hc
  simp [hall c hc]

/-- `int()` succeeds on a non-empty string of ASCII digits and returns
its decimal value. -/
theorem pyIntParse_ascii (l : List Char) (h : isAsciiDigits l = true) :
    pyIntParse l = some ((digitsToNat l : Nat) : Int) := by
  obtain ⟨hne, hall⟩ : ¬ l.isEmpty = true ∧ ∀ c ∈ l, c.isDigit = true := by
    simpa [isAsciiDigits] using h
  have hns : ∀ c ∈ l, isPySpace c = false :=
    fun c hc => isDigit_not_space c (hall c hc)
  unfold pyIntParse
  rw [dropWhile_eq_self_of_all _ _ hns,
    dropWhile_eq_self_of_all _ _ (fun c hc => hns c (by simpa using hc)),
    List.reverse_reverse]
  match l, hne, hall, h with
  | c :: ds, _, hall, h =>
    have hcd : c.isDigit = true := hall c (by simp)
    have hc1 : ¬ c = '-' := fun hEq => by
      subst hEq; exact absurd hcd (by decide)
    have hc2 : ¬ c = '+' := fun hEq => by
      subst hEq; exact absurd hcd (by decide)
    simp [hc1, hc2, h]

/-- C7: every index-based target strategy bounds-checks against the
length of the resolved choice list, and when a document's only target
signal is an index field whose (0-based) index is out of range, target
resolution returns `None` — no later strategy, including the
first-choice-correct convention, produces a target instead.  Covered:
int-valued `gold`, `label` and `answer_idx`; digit-string `gold`;
1-based `correct_answer_num`; and `answerKey` resolved through a label
list to an out-of-range position. -/
theorem c7_index_bounds_checked (cs : List PyVal) (k : Int) (s : String)
    (m : Int) (ak : PyVal) (ls : List PyVal)
    (hk : k < 0 ∨ (cs.length : Int) ≤ k)
    (hs : isAsciiDigits s.data = true)
    (hsv : (cs.length : Int) ≤ (digitsToNat s.data : Int))
    (hm : m - 1 < 0 ∨ (cs.length : Int) ≤ m - 1)
    (hak : (cs.length : Int) ≤ (pyListIndexOf ls ak : Int)) :
    get_target_from_doc [("gold", PyVal.int k)] (PyVal.list cs) = .ok none ∧
    get_target_from_doc [("label", PyVal.int k)] (PyVal.list cs) = .ok none ∧
    get_target_from_doc [("answer_idx", PyVal.int k)] (PyVal.list cs) =
      .ok none ∧
    get_target_from_doc [("gold", PyVal.str s)] (PyVal.list cs) = .ok none ∧
    get_target_from_doc [("correct_answer_num", PyVal.int m)]
      (PyVal.list cs) = .ok none ∧
    get_target_from_doc [("answerKey", ak),
      ("choices", PyVal.dict [("label", PyVal.list ls)])] (PyVal.list cs) =
      .ok none := by
  refine ⟨?_, ?_, ?_, ?_, ?_, ?_⟩
  · simp [get_target_from_doc, pyLookup?, tgtGoldStr, tgtGoldInt, tgtLabel,
      tgtAnswerIdx, tgtAnswerKey, tgtCorrectAnswerNum, tgtMc, pyHasKey,
      idxLookup_oob cs k hk, bind, Except.bind, pure, Except.pure]
  · simp [get_target_from_doc, pyLookup?, tgtGoldStr, tgtGoldInt, tgtLabel,
      tgtAnswerIdx, tgtAnswerKey, tgtCorrectAnswerNum, tgtMc, pyHasKey,
      idxLookup_oob cs k hk, bind, Except.bind, pure, Except.pure]
  · simp [get_target_from_doc, pyLookup?, tgtGoldStr, tgtGoldInt, tgtLabel,
      tgtAnswerIdx, tgtAnswerKey, tgtCorrectAnswerNum, tgtMc, pyHasKey,
      idxLookup_oob cs k hk, bind, Except.bind, pure, Except.pure]
  · simp [get_target_from_doc, pyLookup?, tgtGoldStr, tgtGoldInt, tgtLabel,
      tgtAnswerIdx, tgtAnswerKey, tgtCorrectAnswerNum, tgtMc, pyHasKey,
      isAsciiDigits_pyIsDigit _ hs, pyIntParse_ascii _ hs,
      idxLookup_oob cs _ (Or.inr hsv), bind, Except.bind, pure, Except.pure]
  · simp [get_target_from_doc, pyLookup?, tgtGoldStr, tgtGoldInt, tgtLabel,
      tgtAnswerIdx, tgtAnswerKey, tgtCorrectAnswerNum, tgtMc, pyHasKey,
      pyIntOf, idxLookup_oob cs _ hm, bind, Except.bind, pure, Except.pure]
  · by_cases hmem : pyContains (PyVal.list ls) ak = .ok true
    · simp [get_target_from_doc, pyLookup?, tgtGoldStr, tgtGoldInt, tgtLabel,
        tgtAnswerIdx, tgtAnswerKey, tgtCorrectAnswerNum, tgtMc, pyHasKey,
        hmem, idxLookup_oob cs _ (Or.inr hak), bind, Except.bind, pure,
        Except.pure]
    · have hmem2 : pyContains (PyVal.list ls) ak = .ok false := by
        simp [pyContains] at hmem ⊢
        simpa using hmem
      simp [get_target_from_doc, pyLookup?, tgtGoldStr, tgtGoldInt, tgtLabel,
        tgtAnswerIdx, tgtAnswerKey, tgtCorrectAnswerNum, tgtMc, pyHasKey,
        hmem2, bind, Except.bind, pure, Except.pure]

/-- Witness for `c7_index_bounds_checked`: one choice, `gold = 5`,
digit-string `gold = "7"`, `correct_answer_num = 0`, and an `answerKey`
not matching any label. -/
theorem c7_index_bounds_checked_witness :
    get_target_from_doc [("gold", PyVal.int 5)]
      (PyVal.list [PyVal.str "x"]) = .ok none ∧
    get_target_from_doc [("label", PyVal.int 5)]
      (PyVal.list [PyVal.str "x"]) = .ok none ∧
    get_target_from_doc [("answer_idx", PyVal.int 5)]
      (PyVal.list [PyVal.str "x"]) = .ok none ∧
    get_target_from_doc [("gold", PyVal.str "7")]
      (PyVal.list [PyVal.str "x"]) = .ok none ∧
    get_target_from_doc [("correct_answer_num", PyVal.int 0)]
      (PyVal.list [PyVal.str "x"]) = .ok none ∧
    get_target_from_doc [("answerKey", PyVal.str "B"),
      ("choices", PyVal.dict [("label", PyVal.list [PyVal.str "A"])])]
      (PyVal.list [PyVal.str "x"]) = .ok none :=
  c7_index_bounds_checked [PyVal.str "x"] 5 "7" 0 (PyVal.str "B")
    [PyVal.str "A"] (by decide) (by decide) (by decide) (by decide)
    (by decide)

/-- C3 counterexample: for the document
`{choices: ["A","B","C","D"], answer_idx: 2}` and the response
`"En tiedä, mutta arvaisin D"`, the engine's matched choice is `"A"`
(the lowercased choice `"a"` occurs in `"mutta"`, and choices are
scanned in order), not `"D"` as the claim states. -/
theorem c3_counterexample :
    extract_and_validate Stats.init StratStats.init
      "En tiedä, mutta arvaisin D"
      [("choices", PyVal.list [PyVal.str "A", PyVal.str "B", PyVal.str "C",
        PyVal.str "D"]), ("answer_idx", PyVal.int 2)] =
      .ok ("A", ⟨1, 0, 1, 0, 0, 0, 0, 0⟩, ⟨1, 0, 0, 0, 0, 0, 0⟩) ∧
    "A" ≠ "D" := ⟨rfl, by decide⟩

/-- C3 amended: in that scenario the target resolves to `"C"`, the
matched choice is `"A"` via the substring strategy (the first choice in
ChoiceSet order whose lowercased text occurs in the first line), the
classification is Wrong, and the returned string is `"A"`. -/
theorem c3_scenario :
    get_target_from_doc
      [("choices", PyVal.list [PyVal.str "A", PyVal.str "B", PyVal.str "C",
        PyVal.str "D"]), ("answer_idx", PyVal.int 2)]
      (PyVal.list [PyVal.str "A", PyVal.str "B", PyVal.str "C",
        PyVal.str "D"]) = .ok (some (PyVal.str "C")) ∧
    classify "En tiedä, mutta arvaisin D"
      [("choices", PyVal.list [PyVal.str "A", PyVal.str "B", PyVal.str "C",
        PyVal.str "D"]), ("answer_idx", PyVal.int 2)] =
      .ok (.wrong "A" .substring_match) := ⟨rfl, rfl⟩

theorem idxLookup_list_ok (cs : List PyVal) (k : Int) :
    ∃ r, idxLookup (PyVal.list cs) k = .ok r := by
  unfold idxLookup
  by_cases hc : pyTruthy (PyVal.list cs)
  · by_cases h0 : (0:Int) ≤ k
    · by_cases hlt : k < (cs.length : Int)
      · have hk : k.toNat < cs.length := by omega
        refine ⟨some (cs[k.toNat]), ?_⟩
        simp [hc, h0, hlt, pyLen, pyIndexNat, List.getElem?_eq_getElem hk,
          bind, Except.bind, pure, Except.pure]
      · exact ⟨none, by simp [hc, h0, hlt, pyLen, bind, Except.bind, pure, Except.pure]⟩
    · exact ⟨none, by simp [hc, h0, pure, Except.pure]⟩
  · exact ⟨none, by simp [hc, pure, Except.pure]⟩

theorem tgtMc_ok (doc : PyDict) (cs : List PyVal) :
    ∃ r, tgtMc doc (PyVal.list cs) = .ok r := by
  unfold tgtMc
  by_cases hk : (pyHasKey doc "mc1_targets" || pyHasKey doc "mc2_targets") = true
  · match cs with
    | c :: cs' =>
      exact ⟨some c, by simp [hk, pyTruthy, pyLen, pyIndexNat, bind, Except.bind, pure, Except.pure]⟩
    | [] => exact ⟨none, by simp [hk, pyTruthy, pure, Except.pure]⟩
  · exact ⟨none, by simp [hk, pure, Except.pure]⟩

theorem tgtCorrectAnswerNum_ok (doc : PyDict) (cs : List PyVal)
    (hcan : ∀ v, pyLookup? doc "correct_answer_num" = some v →
      (∃ n, v = PyVal.int n) ∨
        (∃ s n, v = PyVal.str s ∧ pyIntParse s.data = some n)) :
    ∃ r, tgtCorrectAnswerNum doc (PyVal.list cs) = .ok r := by
  unfold tgtCorrectAnswerNum
  cases hv : pyLookup? doc "correct_answer_num" with
  | none => exact tgtMc_ok doc cs
  | some v =>
    rcases hcan v hv with ⟨n, rfl⟩ | ⟨s, n, rfl, hp⟩
    · obtain ⟨r0, hr0⟩ := idxLookup_list_ok cs (n - 1)
      cases r0 with
      | some t => exact ⟨some t, by simp [pyIntOf, hr0, bind, Except.bind, pure, Except.pure]⟩
      | none =>
        obtain ⟨r1, hr1⟩ := tgtMc_ok doc cs
        exact ⟨r1, by simp [pyIntOf, hr0, hr1, bind, Except.bind, pure, Except.pure]⟩
    · obtain ⟨r0, hr0⟩ := idxLookup_list_ok cs (n - 1)
      cases r0 with
      | some t => exact ⟨some t, by simp [pyIntOf, hp, hr0, bind, Except.bind, pure, Except.pure]⟩
      | none =>
        obtain ⟨r1, hr1⟩ := tgtMc_ok doc cs
        exact ⟨r1, by simp [pyIntOf, hp, hr0, hr1, bind, Except.bind, pure, Except.pure]⟩

theorem tgtAnswerKey_ok (doc : PyDict) (cs : List PyVal)
    (hcan : ∀ v, pyLookup? doc "correct_answer_num" = some v →
      (∃ n, v = PyVal.int n) ∨
        (∃ s n, v = PyVal.str s ∧ pyIntParse s.data = some n))
    (hlab : ∀ c ls, pyLookup? doc "choices" = some (PyVal.dict c) →
      pyLookup? c "label" = some ls → ∃ xs, ls = PyVal.list xs) :
    ∃ r, tgtAnswerKey doc (PyVal.list cs) = .ok r := by
  unfold tgtAnswerKey
  obtain ⟨r1, hr1⟩ := tgtCorrectAnswerNum_ok doc cs hcan
  cases hak : pyLookup? doc "answerKey" with
  | none => exact ⟨r1, by simp [hak, hr1]⟩
  | some ak =>
    cases hch : pyLookup? doc "choices" with
    | none => exact ⟨r1, by simp [hak, hch, hr1]⟩
    | some cv =>
      match cv with
      | .str s => exact ⟨r1, by simp [hak, hch, hr1]⟩
      | .int n => exact ⟨r1, by simp [hak, hch, hr1]⟩
      | .list l => exact ⟨r1, by simp [hak, hch, hr1]⟩
      | .dict c =>
        cases hlb : pyLookup? c "label" with
        | none => exact ⟨r1, by simp [hak, hch, hlb, hr1]⟩
        | some labels =>
          obtain ⟨xs, rfl⟩ := hlab c labels hch hlb
          by_cases hm : xs.any (fun v => pyEq v ak) = true
          · obtain ⟨r0, hr0⟩ := idxLookup_list_ok cs ((pyListIndexOf xs ak : Nat) : Int)
            cases r0 with
            | some t =>
              exact ⟨some t, by simp [hak, hch, hlb, pyContains, hm, hr0, bind, Except.bind, pure, Except.pure]⟩
            | none =>
              exact ⟨r1, by simp [hak, hch, hlb, pyContains, hm, hr0, hr1, bind, Except.bind, pure, Except.pure]⟩
          · exact ⟨r1, by simp [hak, hch, hlb, pyContains, hm, hr1, bind, Except.bind, pure, Except.pure]⟩

theorem tgtAnswerIdx_ok (doc : PyDict) (cs : List PyVal)
    (hai : ∀ v, pyLookup? doc "answer_idx" = some v →
      (∃ n, v = PyVal.int n) ∨
        (∃ s n, v = PyVal.str s ∧ pyIntParse s.data = some n))
    (hcan : ∀ v, pyLookup? doc "correct_answer_num" = some v →
      (∃ n, v = PyVal.int n) ∨
        (∃ s n, v = PyVal.str s ∧ pyIntParse s.data = some n))
    (hlab : ∀ c ls, pyLookup? doc "choices" = some (PyVal.dict c) →
      pyLookup? c "label" = some ls → ∃ xs, ls = PyVal.list xs) :
    ∃ r, tgtAnswerIdx doc (PyVal.list cs) = .ok r := by
  unfold tgtAnswerIdx
  cases hv : pyLookup? doc "answer_idx" with
  | none => exact tgtAnswerKey_ok doc cs hcan hlab
  | some v =>
    rcases hai v hv with ⟨n, rfl⟩ | ⟨s, n, rfl, hp⟩
    · obtain ⟨r0, hr0⟩ := idxLookup_list_ok cs n
      cases r0 with
      | some t => exact ⟨some t, by simp [hr0, bind, Except.bind, pure, Except.pure]⟩
      | none =>
        obtain ⟨r1, hr1⟩ := tgtAnswerKey_ok doc cs hcan hlab
        exact ⟨r1, by simp [hr0, hr1, bind, Except.bind, pure, Except.pure]⟩
    · obtain ⟨r0, hr0⟩ := idxLookup_list_ok cs n
      cases r0 with
      | some t => exact ⟨some t, by simp [hp, hr0, bind, Except.bind, pure, Except.pure]⟩
      | none =>
        obtain ⟨r1, hr1⟩ := tgtAnswerKey_ok doc cs hcan hlab
        exact ⟨r1, by simp [hp, hr0, hr1, bind, Except.bind, pure, Except.pure]⟩

theorem tgtLabel_ok (doc : PyDict) (cs : List PyVal)
    (hai : ∀ v, pyLookup? doc "answer_idx" = some v →
      (∃ n, v = PyVal.int n) ∨
        (∃ s n, v = PyVal.str s ∧ pyIntParse s.data = some n))
    (hcan : ∀ v, pyLookup? doc "correct_answer_num" = some v →
      (∃ n, v = PyVal.int n) ∨
        (∃ s n, v = PyVal.str s ∧ pyIntParse s.data = some n))
    (hlab : ∀ c ls, pyLookup? doc "choices" = some (PyVal.dict c) →
      pyLookup? c "label" = some ls → ∃ xs, ls = PyVal.list xs) :
    ∃ r, tgtLabel doc (PyVal.list cs) = .ok r := by
  unfold tgtLabel
  cases hv : pyLookup? doc "label" with
  | none => exact tgtAnswerIdx_ok doc cs hai hcan hlab
  | some v =>
    match v with
    | .int n =>
      obtain ⟨r0, hr0⟩ := idxLookup_list_ok cs n
      cases r0 with
      | some t => exact ⟨some t, by simp [hr0, bind, Except.bind, pure, Except.pure]⟩
      | none =>
        obtain ⟨r1, hr1⟩ := tgtAnswerIdx_ok doc cs hai hcan hlab
        exact ⟨r1, by simp [hr0, hr1, bind, Except.bind, pure, Except.pure]⟩
    | .str s => exact tgtAnswerIdx_ok doc cs hai hcan hlab
    | .list l => exact tgtAnswerIdx_ok doc cs hai hcan hlab
    | .dict d => exact tgtAnswerIdx_ok doc cs hai hcan hlab

theorem tgtGoldInt_ok (doc : PyDict) (cs : List PyVal)
    (hai : ∀ v, pyLookup? doc "answer_idx" = some v →
      (∃ n, v = PyVal.int n) ∨
        (∃ s n, v = PyVal.str s ∧ pyIntParse s.data = some n))
    (hcan : ∀ v, pyLookup? doc "correct_answer_num" = some v →
      (∃ n, v = PyVal.int n) ∨
        (∃ s n, v = PyVal.str s ∧ pyIntParse s.data = some n))
    (hlab : ∀ c ls, pyLookup? doc "choices" = some (PyVal.dict c) →
      pyLookup? c "label" = some ls → ∃ xs, ls = PyVal.list xs) :
    ∃ r, tgtGoldInt doc (PyVal.list cs) = .ok r := by
  unfold tgtGoldInt
  obtain ⟨r1, hr1⟩ := tgtLabel_ok doc cs hai hcan hlab
  cases hv : pyLookup? doc "gold" with
  | none => exact ⟨r1, by simp [hv, hr1]⟩
  | some v =>
    match v with
    | .int n =>
      obtain ⟨r0, hr0⟩ := idxLookup_list_ok cs n
      cases r0 with
      | some t => exact ⟨some t, by simp [hv, hr0, bind, Except.bind, pure, Except.pure]⟩
      | none => exact ⟨r1, by simp [hv, hr0, hr1, bind, Except.bind, pure, Except.pure]⟩
    | .str s => exact ⟨r1, by simp [hv, hr1]⟩
    | .list l => exact ⟨r1, by simp [hv, hr1]⟩
    | .dict d => exact ⟨r1, by simp [hv, hr1]⟩

theorem tgtGoldStr_ok (doc : PyDict) (cs : List PyVal)
    (hai : ∀ v, pyLookup? doc "answer_idx" = some v →
      (∃ n, v = PyVal.int n) ∨
        (∃ s n, v = PyVal.str s ∧ pyIntParse s.data = some n))
    (hcan : ∀ v, pyLookup? doc "correct_answer_num" = some v →
      (∃ n, v = PyVal.int n) ∨
        (∃ s n, v = PyVal.str s ∧ pyIntParse s.data = some n))
    (hlab : ∀ c ls, pyLookup? doc "choices" = some (PyVal.dict c) →
      pyLookup? c "label" = some ls → ∃ xs, ls = PyVal.list xs)
    (hgold : ∀ s, pyLookup? doc "gold" = some (PyVal.str s) →
      pyIsDigit s.data = true → ∃ n, pyIntParse s.data = some n) :
    ∃ r, tgtGoldStr doc (PyVal.list cs) = .ok r := by
  unfold tgtGoldStr
  obtain ⟨r1, hr1⟩ := tgtGoldInt_ok doc cs hai hcan hlab
  cases hv : pyLookup? doc "gold" with
  | none => exact ⟨r1, by simp [hv, hr1]⟩
  | some v =>
    match v with
    | .int n => exact ⟨r1, by simp [hv, hr1]⟩
    | .str s =>
      by_cases hd : pyIsDigit s.data = true
      · obtain ⟨n, hn⟩ := hgold s hv hd
        obtain ⟨r0, hr0⟩ := idxLookup_list_ok cs n
        cases r0 with
        | some t => exact ⟨some t, by simp [hv, hd, hn, hr0, bind, Except.bind, pure, Except.pure]⟩
        | none => exact ⟨r1, by simp [hv, hd, hn, hr0, hr1, bind, Except.bind, pure, Except.pure]⟩
      · exact ⟨some (PyVal.str s), by simp [hv, hd, pure, Except.pure]⟩
    | .list l => exact ⟨r1, by simp [hv, hr1]⟩
    | .dict d => exact ⟨r1, by simp [hv, hr1]⟩

/-- C6 amended: target resolution treats missing fields as "strategy not
applicable" and raises no exception for any document in which every
present `answer_idx` / `correct_answer_num` value is an int or an
int-parsable string, every present `isdigit`-true string `gold` parses
as an integer (equivalently, contains only decimal digits), and any
`answerKey` label structure is a list; in particular it never throws for
missing fields, for any int-valued index field, or for any
decimal-digit-string index field.  (The unamendable parts, refuted by
`c6_counterexample`: a string-valued `answer_idx` that does not parse as
an integer raises `ValueError`, and so does an `isdigit`-true `gold`
made of digit-typed non-decimal characters such as `"²"`.) -/
theorem c6_resolver_no_throw (doc : PyDict) (cs : List PyVal)
    (hai : ∀ v, pyLookup? doc "answer_idx" = some v →
      (∃ n, v = PyVal.int n) ∨
        (∃ s n, v = PyVal.str s ∧ pyIntParse s.data = some n))
    (hcan : ∀ v, pyLookup? doc "correct_answer_num" = some v →
      (∃ n, v = PyVal.int n) ∨
        (∃ s n, v = PyVal.str s ∧ pyIntParse s.data = some n))
    (hlab : ∀ c ls, pyLookup? doc "choices" = some (PyVal.dict c) →
      pyLookup? c "label" = some ls → ∃ xs, ls = PyVal.list xs)
    (hgold : ∀ s, pyLookup? doc "gold" = some (PyVal.str s) →
      pyIsDigit s.data = true → ∃ n, pyIntParse s.data = some n) :
    ∃ r, get_target_from_doc doc (PyVal.list cs) = .ok r := by
  unfold get_target_from_doc
  obtain ⟨r1, hr1⟩ := tgtGoldStr_ok doc cs hai hcan hlab hgold
  cases hv : pyLookup? doc "targets" with
  | none => exact ⟨r1, by simp [hv, hr1]⟩
  | some v =>
    match v with
    | .int n => exact ⟨r1, by simp [hv, hr1]⟩
    | .str s => exact ⟨r1, by simp [hv, hr1]⟩
    | .list l =>
      match l with
      | [] => exact ⟨r1, by simp [hv, hr1]⟩
      | t :: ts => exact ⟨some t, by simp [hv, pure, Except.pure]⟩
    | .dict d => exact ⟨r1, by simp [hv, hr1]⟩

/-- Witness for `c6_resolver_no_throw`: a digit-string `answer_idx`. -/
theorem c6_resolver_no_throw_witness :
    ∃ r, get_target_from_doc [("answer_idx", PyVal.str "2")]
      (PyVal.list [PyVal.str "x"]) = .ok r :=
  c6_resolver_no_throw [("answer_idx", PyVal.str "2")] [PyVal.str "x"]
    (fun v hv => by
      simp [pyLookup?] at hv
      exact Or.inr ⟨"2", 2, hv.symm, by decide⟩)
    (fun v hv => by simp [pyLookup?] at hv)
    (fun c ls hch => by simp [pyLookup?] at hch)
    (fun s hv => by simp [pyLookup?] at hv)

/-- C6 counterexample: a string-valued `answer_idx` that does not parse
as an integer makes target resolution raise `ValueError` (from
`int(doc["answer_idx"])`), refuting "target resolution does not throw
for any string-valued answer_idx"; likewise a string-valued `gold` of
digit-typed non-decimal characters (`"²"` satisfies `str.isdigit` but
`int("²")` raises) makes target resolution raise `ValueError`. -/
theorem c6_counterexample :
    get_target_from_doc [("answer_idx", PyVal.str "abc")]
      (PyVal.list [PyVal.str "x"]) =
      .error "ValueError: invalid literal for int()" ∧
    get_target_from_doc [("gold", PyVal.str "²")]
      (PyVal.list [PyVal.str "x"]) =
      .error "ValueError: invalid literal for int()" := ⟨rfl, rfl⟩

/-- C5 counterexample: a document whose `choices` field is an empty list
but which has a non-empty `options` list resolves to the empty `choices`
list, not to the `options` list — the first strategy fires on field
presence and type, not on non-emptiness. -/
theorem c5_counterexample :
    get_choices_from_doc [("choices", PyVal.list []),
      ("options", PyVal.list [PyVal.str "vaihtoehto"])] = PyVal.list [] ∧
    PyVal.list [] ≠ PyVal.list [PyVal.str "vaihtoehto"] :=
  ⟨rfl, by simp⟩

/-- C5 amended: each choice strategy fires on field presence and shape
rather than non-emptiness — a present list-valued `choices` field is
returned as-is even when empty (so later strategies, including the
`options` fallback, are not consulted); when no earlier strategy's shape
matches, a list-valued `options` field is returned; and a document
matching no strategy yields the empty sequence. -/
theorem c5_presence_wins :
    (∀ (doc : PyDict) (xs : List PyVal),
      pyLookup? doc "choices" = some (PyVal.list xs) →
      get_choices_from_doc doc = PyVal.list xs) ∧
    get_choices_from_doc [("options", PyVal.list [PyVal.str "vaihtoehto"])] =
      PyVal.list [PyVal.str "vaihtoehto"] ∧
    get_choices_from_doc [] = PyVal.list [] := by
  refine ⟨?_, rfl, rfl⟩
  intro doc xs h
  simp [get_choices_from_doc, h]

/-- Witness for `c5_presence_wins`: the empty-`choices` document. -/
theorem c5_presence_wins_witness :
    get_choices_from_doc [("choices", PyVal.list []),
      ("options", PyVal.list [PyVal.str "vaihtoehto"])] = PyVal.list [] :=
  c5_presence_wins.1 [("choices", PyVal.list []),
    ("options", PyVal.list [PyVal.str "vaihtoehto"])] [] rfl


theorem strat1_all_falsy (x : List Char) (chs : List PyVal)
    (h : ∀ v ∈ chs, pyTruthy v = false) : strat1 x chs = .ok none := by
  induction chs with
  | nil => rfl
  | cons c cs ih =>
    have hc := h c (by simp)
    simpa [strat1, hc] using ih (fun v hv => h v (by simp [hv]))

theorem strat1_mem (x : List Char) (chs : List PyVal) (s : String)
    (h : strat1 x chs = .ok (some s)) : PyVal.str s ∈ chs ∧ s ≠ "" := by
  induction chs with
  | nil => simp [strat1, pure, Except.pure] at h
  | cons c cs ih =>
    by_cases hc : pyTruthy c = true
    · match c with
      | .str t =>
        by_cases ht : isSubstring (lowerL t.data) x = true
        · have : t = s := by simpa [strat1, hc, ht, pure, Except.pure] using h
          subst this
          refine ⟨by simp, ?_⟩
          simpa [pyTruthy, String.isEmpty_iff] using hc
        · have h2 : strat1 x cs = .ok (some s) := by
            simpa [strat1, hc, ht] using h
          have := ih h2
          exact ⟨by simp [this.1], this.2⟩
      | .int n => simp [strat1, hc] at h
      | .list l => simp [strat1, hc] at h
      | .dict d => simp [strat1, hc] at h
    · have h2 : strat1 x cs = .ok (some s) := by simpa [strat1, hc] using h
      have := ih h2
      exact ⟨by simp [this.1], this.2⟩

theorem strat2_all_falsy (x : List Char) (chs : List PyVal)
    (h : ∀ v ∈ chs, pyTruthy v = false) : strat2 x chs = .ok none := by
  induction chs with
  | nil => rfl
  | cons c cs ih =>
    have hc := h c (by simp)
    simpa [strat2, hc] using ih (fun v hv => h v (by simp [hv]))

theorem strat2_mem (x : List Char) (chs : List PyVal) (s : String)
    (h : strat2 x chs = .ok (some s)) : PyVal.str s ∈ chs ∧ s ≠ "" := by
  induction chs with
  | nil => simp [strat2, pure, Except.pure] at h
  | cons c cs ih =>
    by_cases hc : pyTruthy c = true
    · match c with
      | .str t =>
        by_cases ht : x = normalize_text t.data
        · have : t = s := by simpa [strat2, hc, ht, pure, Except.pure] using h
          subst this
          refine ⟨by simp, ?_⟩
          simpa [pyTruthy, String.isEmpty_iff] using hc
        · have h2 : strat2 x cs = .ok (some s) := by
            simpa [strat2, hc, ht] using h
          have := ih h2
          exact ⟨by simp [this.1], this.2⟩
      | .int n => simp [strat2, hc] at h
      | .list l => simp [strat2, hc] at h
      | .dict d => simp [strat2, hc] at h
    · have h2 : strat2 x cs = .ok (some s) := by simpa [strat2, hc] using h
      have := ih h2
      exact ⟨by simp [this.1], this.2⟩

theorem strat3_all_falsy (x : List Char) (chs : List PyVal)
    (h : ∀ v ∈ chs, pyTruthy v = false) : strat3 x chs = .ok none := by
  induction chs with
  | nil => rfl
  | cons c cs ih =>
    have hc := h c (by simp)
    simpa [strat3, hc] using ih (fun v hv => h v (by simp [hv]))

theorem strat3_mem (x : List Char) (chs : List PyVal) (s : String)
    (h : strat3 x chs = .ok (some s)) : PyVal.str s ∈ chs ∧ s ≠ "" := by
  induction chs with
  | nil => simp [strat3, pure, Except.pure] at h
  | cons c cs ih =>
    by_cases hc : pyTruthy c = true
    · match c with
      | .str t =>
        by_cases ht : x = strip_special_chars (normalize_text t.data)
        · have : t = s := by simpa [strat3, hc, ht, pure, Except.pure] using h
          subst this
          refine ⟨by simp, ?_⟩
          simpa [pyTruthy, String.isEmpty_iff] using hc
        · have h2 : strat3 x cs = .ok (some s) := by
            simpa [strat3, hc, ht] using h
          have := ih h2
          exact ⟨by simp [this.1], this.2⟩
      | .int n => simp [strat3, hc] at h
      | .list l => simp [strat3, hc] at h
      | .dict d => simp [strat3, hc] at h
    · have h2 : strat3 x cs = .ok (some s) := by simpa [strat3, hc] using h
      have := ih h2
      exact ⟨by simp [this.1], this.2⟩

theorem strat4_all_falsy (x : List Char) (chs : List PyVal)
    (h : ∀ v ∈ chs, pyTruthy v = false) : strat4 x chs = .ok none := by
  induction chs with
  | nil => rfl
  | cons c cs ih =>
    have hc := h c (by simp)
    simpa [strat4, hc] using ih (fun v hv => h v (by simp [hv]))

theorem strat4_mem (x : List Char) (chs : List PyVal) (s : String)
    (h : strat4 x chs = .ok (some s)) : PyVal.str s ∈ chs ∧ s ≠ "" := by
  induction chs with
  | nil => simp [strat4, pure, Except.pure] at h
  | cons c cs ih =>
    by_cases hc : pyTruthy c = true
    · match c with
      | .str t =>
        by_cases ht : fuzzyQualifies x (normalize_text t.data) = true
        · have : t = s := by simpa [strat4, hc, ht, pure, Except.pure] using h
          subst this
          refine ⟨by simp, ?_⟩
          simpa [pyTruthy, String.isEmpty_iff] using hc
        · have h2 : strat4 x cs = .ok (some s) := by
            simpa [strat4, hc, ht] using h
          have := ih h2
          exact ⟨by simp [this.1], this.2⟩
      | .int n => simp [strat4, hc] at h
      | .list l => simp [strat4, hc] at h
      | .dict d => simp [strat4, hc] at h
    · have h2 : strat4 x cs = .ok (some s) := by simpa [strat4, hc] using h
      have := ih h2
      exact ⟨by simp [this.1], this.2⟩

theorem strat6_all_falsy (x : List Char) (chs : List PyVal)
    (h : ∀ v ∈ chs, pyTruthy v = false) : strat6 x chs = .ok none := by
  induction chs with
  | nil => rfl
  | cons c cs ih =>
    have hc := h c (by simp)
    simpa [strat6, hc] using ih (fun v hv => h v (by simp [hv]))

theorem strat6_mem (x : List Char) (chs : List PyVal) (s : String)
    (h : strat6 x chs = .ok (some s)) : PyVal.str s ∈ chs ∧ s ≠ "" := by
  induction chs with
  | nil => simp [strat6, pure, Except.pure] at h
  | cons c cs ih =>
    by_cases hc : pyTruthy c = true
    · match c with
      | .str t =>
        by_cases hlen : t.length ≥ 4
        · by_cases ht : stemSearch (stemOf t.data) x = true
          · have : t = s := by
              simpa [strat6, hc, pyLen, hlen, ht, bind, Except.bind, pure,
                Except.pure] using h
            subst this
            refine ⟨by simp, ?_⟩
            simpa [pyTruthy, String.isEmpty_iff] using hc
          · have h2 : strat6 x cs = .ok (some s) := by
              simpa [strat6, hc, pyLen, hlen, ht, bind, Except.bind] using h
            have := ih h2
            exact ⟨by simp [this.1], this.2⟩
        · have h2 : strat6 x cs = .ok (some s) := by
            simpa [strat6, hc, pyLen, hlen, bind, Except.bind] using h
          have := ih h2
          exact ⟨by simp [this.1], this.2⟩
      | .int n => simp [strat6, hc, pyLen, bind, Except.bind] at h
      | .list l =>
        by_cases hlen : l.length ≥ 4
        · simp [strat6, hc, pyLen, hlen, bind, Except.bind] at h
        · have h2 : strat6 x cs = .ok (some s) := by
            simpa [strat6, hc, pyLen, hlen, bind, Except.bind] using h
          have := ih h2
          exact ⟨by simp [this.1], this.2⟩
      | .dict d =>
        by_cases hlen : d.length ≥ 4
        · simp [strat6, hc, pyLen, hlen, bind, Except.bind] at h
        · have h2 : strat6 x cs = .ok (some s) := by
            simpa [strat6, hc, pyLen, hlen, bind, Except.bind] using h
          have := ih h2
          exact ⟨by simp [this.1], this.2⟩
    · have h2 : strat6 x cs = .ok (some s) := by simpa [strat6, hc] using h
      have := ih h2
      exact ⟨by simp [this.1], this.2⟩

theorem strat5One_all_falsy (x : List Char) (chs : List PyVal)
    (h : ∀ v ∈ chs, pyTruthy v = false) : strat5One x chs = .ok none := by
  induction chs with
  | nil => rfl
  | cons c cs ih =>
    have hc := h c (by simp)
    simpa [strat5One, hc] using ih (fun v hv => h v (by simp [hv]))

theorem strat5One_mem (x : List Char) (chs : List PyVal) (s : String)
    (h : strat5One x chs = .ok (some s)) : PyVal.str s ∈ chs ∧ s ≠ "" := by
  induction chs with
  | nil => simp [strat5One, pure, Except.pure] at h
  | cons c cs ih =>
    by_cases hc : pyTruthy c = true
    · match c with
      | .str t =>
        by_cases hlen : t.length ≥ 4
        · by_cases ht : boldQualifies x t.data = true
          · have : t = s := by
              simpa [strat5One, hc, pyLen, hlen, ht, bind, Except.bind, pure,
                Except.pure] using h
            subst this
            refine ⟨by simp, ?_⟩
            simpa [pyTruthy, String.isEmpty_iff] using hc
          · have h2 : strat5One x cs = .ok (some s) := by
              simpa [strat5One, hc, pyLen, hlen, ht, bind, Except.bind] using h
            have := ih h2
            exact ⟨by simp [this.1], this.2⟩
        · have h2 : strat5One x cs = .ok (some s) := by
            simpa [strat5One, hc, pyLen, hlen, bind, Except.bind] using h
          have := ih h2
          exact ⟨by simp [this.1], this.2⟩
      | .int n => simp [strat5One, hc, pyLen, bind, Except.bind] at h
      | .list l =>
        by_cases hlen : l.length ≥ 4
        · simp [strat5One, hc, pyLen, hlen, bind, Except.bind] at h
        · have h2 : strat5One x cs = .ok (some s) := by
            simpa [strat5One, hc, pyLen, hlen, bind, Except.bind] using h
          have := ih h2
          exact ⟨by simp [this.1], this.2⟩
      | .dict d =>
        by_cases hlen : d.length ≥ 4
        · simp [strat5One, hc, pyLen, hlen, bind, Except.bind] at h
        · have h2 : strat5One x cs = .ok (some s) := by
            simpa [strat5One, hc, pyLen, hlen, bind, Except.bind] using h
          have := ih h2
          exact ⟨by simp [this.1], this.2⟩
    · have h2 : strat5One x cs = .ok (some s) := by simpa [strat5One, hc] using h
      have := ih h2
      exact ⟨by simp [this.1], this.2⟩

theorem strat5_all_falsy (chs : List PyVal) (bws : List (List Char))
    (h : ∀ v ∈ chs, pyTruthy v = false) : strat5 chs bws = .ok none := by
  induction bws with
  | nil => rfl
  | cons bw rest ih =>
    simp [strat5, strat5One_all_falsy bw chs h, bind, Except.bind, ih]

theorem strat5_mem (chs : List PyVal) (bws : List (List Char)) (s : String)
    (h : strat5 chs bws = .ok (some s)) : PyVal.str s ∈ chs ∧ s ≠ "" := by
  induction bws with
  | nil => simp [strat5, pure, Except.pure] at h
  | cons bw rest ih =>
    cases h1 : strat5One bw chs with
    | error e => simp [strat5, h1, bind, Except.bind] at h
    | ok r =>
      cases r with
      | some t =>
        have hts : t = s := by
          simpa [strat5, h1, bind, Except.bind, pure, Except.pure] using h
        exact hts ▸ strat5One_mem bw chs t h1
      | none =>
        exact ih (by simpa [strat5, h1, bind, Except.bind] using h)

theorem matchCascade_all_falsy (line : List Char) (chs : List PyVal)
    (h : ∀ v ∈ chs, pyTruthy v = false) : matchCascade line chs = .ok none := by
  simp [matchCascade, strat1_all_falsy _ _ h, strat2_all_falsy _ _ h,
    strat3_all_falsy _ _ h, strat4_all_falsy _ _ h, strat5_all_falsy _ _ h,
    strat6_all_falsy _ _ h, bind, Except.bind, pure, Except.pure]

theorem matchCascade_mem (line : List Char) (chs : List PyVal) (s : String)
    (st : Strat) (h : matchCascade line chs = .ok (some (s, st))) :
    PyVal.str s ∈ chs ∧ s ≠ "" := by
  unfold matchCascade at h
  cases h1 : strat1 (lowerL line) chs with
  | error e => simp [h1, bind, Except.bind] at h
  | ok r1 =>
    simp only [h1, bind, Except.bind] at h
    cases r1 with
    | some t =>
      obtain ⟨hts, hst⟩ : t = s ∧ Strat.substring_match = st := by
        simpa [pure, Except.pure] using h
      exact hts ▸ strat1_mem _ _ _ h1
    | none =>
      cases h2 : strat2 (normalize_text line) chs with
      | error e => simp [h2, bind, Except.bind] at h
      | ok r2 =>
        simp only [h2, bind, Except.bind] at h
        cases r2 with
        | some t =>
          obtain ⟨hts, hst⟩ : t = s ∧ Strat.normalized_exact = st := by
            simpa [pure, Except.pure] using h
          exact hts ▸ strat2_mem _ _ _ h2
        | none =>
          cases h3 : strat3 (strip_special_chars (normalize_text line)) chs with
          | error e => simp [h3, bind, Except.bind] at h
          | ok r3 =>
            simp only [h3, bind, Except.bind] at h
            cases r3 with
            | some t =>
              obtain ⟨hts, hst⟩ : t = s ∧ Strat.stripped_special = st := by
                simpa [pure, Except.pure] using h
              exact hts ▸ strat3_mem _ _ _ h3
            | none =>
              cases h4 : strat4 (normalize_text line) chs with
              | error e => simp [h4, bind, Except.bind] at h
              | ok r4 =>
                simp only [h4, bind, Except.bind] at h
                cases r4 with
                | some t =>
                  obtain ⟨hts, hst⟩ : t = s ∧ Strat.fuzzy_80 = st := by
                    simpa [pure, Except.pure] using h
                  exact hts ▸ strat4_mem _ _ _ h4
                | none =>
                  cases h5 : strat5 chs (boldSpans line) with
                  | error e => simp [h5, bind, Except.bind] at h
                  | ok r5 =>
                    simp only [h5, bind, Except.bind] at h
                    cases r5 with
                    | some t =>
                      obtain ⟨hts, hst⟩ : t = s ∧ Strat.bold_match = st := by
                        simpa [pure, Except.pure] using h
                      exact hts ▸ strat5_mem _ _ _ h5
                    | none =>
                      cases h6 : strat6 (lowerL line) chs with
                      | error e => simp [h6, bind, Except.bind] at h
                      | ok r6 =>
                        simp only [h6, bind, Except.bind] at h
                        cases r6 with
                        | some t =>
                          obtain ⟨hts, hst⟩ : t = s ∧ Strat.stem_match = st := by
                            simpa [pure, Except.pure] using h
                          exact hts ▸ strat6_mem _ _ _ h6
                        | none => simp [pure, Except.pure] at h

theorem strat1_pure (x : List Char) (chs : List String) :
    strat1 x (chs.map PyVal.str) = .ok (chs.find? (qualSub x)) := by
  induction chs with
  | nil => rfl
  | cons s cs ih =>
    by_cases hs : s.isEmpty = true
    · have hq : qualSub x s = false := by simp [qualSub, hs]
      simp [strat1, pyTruthy, hs, hq, ih]
    · by_cases ht : isSubstring (lowerL s.data) x = true
      · have hq : qualSub x s = true := by simp [qualSub, hs, ht]
        simp [strat1, pyTruthy, hs, ht, hq, pure, Except.pure]
      · have hq : qualSub x s = false := by simp [qualSub, hs, ht]
        simp [strat1, pyTruthy, hs, ht, hq, ih]

theorem strat2_pure (x : List Char) (chs : List String) :
    strat2 x (chs.map PyVal.str) = .ok (chs.find? (qualNorm x)) := by
  induction chs with
  | nil => rfl
  | cons s cs ih =>
    by_cases hs : s.isEmpty = true
    · have hq : qualNorm x s = false := by simp [qualNorm, hs]
      simp [strat2, pyTruthy, hs, hq, ih]
    · by_cases ht : x = normalize_text s.data
      · have hq : qualNorm x s = true := by simp [qualNorm, hs, ht]
        rw [List.find?_cons_of_pos _ hq]
        simp [strat2, pyTruthy, hs, ht, pure, Except.pure]
      · have hq : qualNorm x s = false := by simp [qualNorm, hs, ht]
        simp [strat2, pyTruthy, hs, ht, hq, ih]

theorem strat3_pure (x : List Char) (chs : List String) :
    strat3 x (chs.map PyVal.str) = .ok (chs.find? (qualStrip x)) := by
  induction chs with
  | nil => rfl
  | cons s cs ih =>
    by_cases hs : s.isEmpty = true
    · have hq : qualStrip x s = false := by simp [qualStrip, hs]
      simp [strat3, pyTruthy, hs, hq, ih]
    · by_cases ht : x = strip_special_chars (normalize_text s.data)
      · have hq : qualStrip x s = true := by simp [qualStrip, hs, ht]
        rw [List.find?_cons_of_pos _ hq]
        simp [strat3, pyTruthy, hs, ht, pure, Except.pure]
      · have hq : qualStrip x s = false := by simp [qualStrip, hs, ht]
        simp [strat3, pyTruthy, hs, ht, hq, ih]

theorem strat4_pure (x : List Char) (chs : List String) :
    strat4 x (chs.map PyVal.str) = .ok (chs.find? (qualFuzzy x)) := by
  induction chs with
  | nil => rfl
  | cons s cs ih =>
    by_cases hs : s.isEmpty = true
    · have hq : qualFuzzy x s = false := by simp [qualFuzzy, hs]
      simp [strat4, pyTruthy, hs, hq, ih]
    · by_cases ht : fuzzyQualifies x (normalize_text s.data) = true
      · have hq : qualFuzzy x s = true := by simp [qualFuzzy, hs, ht]
        simp [strat4, pyTruthy, hs, ht, hq, pure, Except.pure]
      · have hq : qualFuzzy x s = false := by simp [qualFuzzy, hs, ht]
        simp [strat4, pyTruthy, hs, ht, hq, ih]

theorem strat6_pure (x : List Char) (chs : List String) :
    strat6 x (chs.map PyVal.str) = .ok (chs.find? (qualStem x)) := by
  induction chs with
  | nil => rfl
  | cons s cs ih =>
    by_cases hs : s.isEmpty = true
    · have hq : qualStem x s = false := by simp [qualStem, hs]
      simp [strat6, pyTruthy, hs, hq, ih]
    · by_cases hlen : s.length ≥ 4
      · by_cases ht : stemSearch (stemOf s.data) x = true
        · have hq : qualStem x s = true := by simp [qualStem, hs, hlen, ht]
          simp [strat6, pyTruthy, pyLen, hs, hlen, ht, hq, pure, Except.pure,
            bind, Except.bind]
        · have hq : qualStem x s = false := by simp [qualStem, hs, hlen, ht]
          simp [strat6, pyTruthy, pyLen, hs, hlen, ht, hq, ih, bind, Except.bind]
      · have hq : qualStem x s = false := by
          simp [qualStem, hs, show ¬ (4 ≤ s.length) from hlen]
        simp [strat6, pyTruthy, pyLen, hs, hlen, hq, ih, bind, Except.bind]

theorem strat5One_pure (x : List Char) (chs : List String) :
    strat5One x (chs.map PyVal.str) = .ok (chs.find? (qualBold x)) := by
  induction chs with
  | nil => rfl
  | cons s cs ih =>
    by_cases hs : s.isEmpty = true
    · have hq : qualBold x s = false := by simp [qualBold, hs]
      simp [strat5One, pyTruthy, hs, hq, ih]
    · by_cases hlen : s.length ≥ 4
      · by_cases ht : boldQualifies x s.data = true
        · have hq : qualBold x s = true := by simp [qualBold, hs, hlen, ht]
          simp [strat5One, pyTruthy, pyLen, hs, hlen, ht, hq, pure, Except.pure,
            bind, Except.bind]
        · have hq : qualBold x s = false := by simp [qualBold, hs, hlen, ht]
          simp [strat5One, pyTruthy, pyLen, hs, hlen, ht, hq, ih, bind, Except.bind]
      · have hq : qualBold x s = false := by
          simp [qualBold, hs, show ¬ (4 ≤ s.length) from hlen]
        simp [strat5One, pyTruthy, pyLen, hs, hlen, hq, ih, bind, Except.bind]

theorem strat5_pure (chs : List String) (bws : List (List Char)) :
    strat5 (chs.map PyVal.str) bws =
      .ok (bws.findSome? (fun bw => chs.find? (qualBold bw))) := by
  induction bws with
  | nil => rfl
  | cons bw rest ih =>
    cases hf : chs.find? (qualBold bw) with
    | some s =>
      simp [strat5, strat5One_pure, hf, bind, Except.bind, pure, Except.pure,
        List.findSome?_cons]
    | none =>
      simp [strat5, strat5One_pure, hf, bind, Except.bind, ih,
        List.findSome?_cons]

theorem matchCascade_eq_spec (line : List Char) (chs : List String) :
    matchCascade line (chs.map PyVal.str) = .ok (cascadeSpec line chs) := by
  unfold matchCascade cascadeSpec
  simp only [strat1_pure, strat2_pure, strat3_pure, strat4_pure, strat5_pure,
    strat6_pure, bind, Except.bind]
  cases chs.find? (qualSub (lowerL line)) with
  | some s => simp [pure, Except.pure]
  | none =>
    cases chs.find? (qualNorm (normalize_text line)) with
    | some s => simp [pure, Except.pure]
    | none =>
      cases chs.find? (qualStrip (strip_special_chars (normalize_text line))) with
      | some s => simp [pure, Except.pure]
      | none =>
        cases chs.find? (qualFuzzy (normalize_text line)) with
        | some s => simp [pure, Except.pure]
        | none =>
          cases (boldSpans line).findSome? (fun bw => chs.find? (qualBold bw)) with
          | some s => simp [pure, Except.pure]
          | none =>
            cases chs.find? (qualStem (lowerL line)) with
            | some s => simp [pure, Except.pure]
            | none => simp [pure, Except.pure]

theorem classify_ok_inv (resp : String) (doc : PyDict) (o : Outcome)
    (h : classify resp doc = .ok o) :
    (∃ r, o = .invalid r) ∨
    ∃ s strat chs, pyIter (get_choices_from_doc doc) = .ok chs ∧
      PyVal.str s ∈ chs ∧ s ≠ "" ∧
      (o = .correct s strat ∨ o = .wrong s strat) := by
  unfold classify at h
  by_cases he : (stripEnds isPySpace resp.data).isEmpty = true
  · have : Outcome.invalid .empty_response = o := by
      simpa [he, pure, Except.pure] using h
    exact Or.inl ⟨_, this.symm⟩
  · by_cases hc : pyTruthy (get_choices_from_doc doc) = true
    · cases htg : get_target_from_doc doc (get_choices_from_doc doc) with
      | error e => simp [he, hc, htg, bind, Except.bind] at h
      | ok tgt =>
        by_cases ht : pyTruthyOpt tgt = true
        · cases hi : pyIter (get_choices_from_doc doc) with
          | error e => simp [he, hc, htg, ht, hi, bind, Except.bind] at h
          | ok chs =>
            cases hm : matchCascade (firstLineOf resp) chs with
            | error e => simp [he, hc, htg, ht, hi, hm, bind, Except.bind] at h
            | ok mr =>
              cases mr with
              | none =>
                have : Outcome.invalid .unparseable = o := by
                  simpa [he, hc, htg, ht, hi, hm, bind, Except.bind, pure,
                    Except.pure] using h
                exact Or.inl ⟨_, this.symm⟩
              | some p =>
                obtain ⟨s, strat⟩ := p
                have hmem := matchCascade_mem _ _ _ _ hm
                match tgt, ht with
                | some (PyVal.str t), ht2 =>
                  by_cases hcmp : lowerL s.data = lowerL t.data
                  · have : Outcome.correct s strat = o := by
                      simpa [he, hc, htg, ht2, hi, hm, hcmp, bind, Except.bind,
                        pure, Except.pure] using h
                    exact Or.inr ⟨s, strat, chs, rfl, hmem.1, hmem.2,
                      Or.inl this.symm⟩
                  · have : Outcome.wrong s strat = o := by
                      simpa [he, hc, htg, ht2, hi, hm, hcmp, bind, Except.bind,
                        pure, Except.pure] using h
                    exact Or.inr ⟨s, strat, chs, rfl, hmem.1, hmem.2,
                      Or.inr this.symm⟩
                | some (PyVal.int n), ht2 =>
                  simp [he, hc, htg, ht2, hi, hm, bind, Except.bind] at h
                | some (PyVal.list l), ht2 =>
                  simp [he, hc, htg, ht2, hi, hm, bind, Except.bind] at h
                | some (PyVal.dict d), ht2 =>
                  simp [he, hc, htg, ht2, hi, hm, bind, Except.bind] at h
        · have : Outcome.invalid .no_target = o := by
            simpa [he, hc, htg, ht, bind, Except.bind, pure, Except.pure] using h
          exact Or.inl ⟨_, this.symm⟩
    · have : Outcome.invalid .no_choices = o := by
        simpa [he, hc, pure, Except.pure] using h
      exact Or.inl ⟨_, this.symm⟩

/-- C10 counterexample: for a document whose ChoiceSet is all empty
strings but whose target resolves through an index to one of those empty
strings, a non-empty response is classified `Invalid(no_target)`, not
`Invalid(unparseable)` as the claim states. -/
theorem c10_counterexample :
    classify "hei" [("choices", PyVal.list [PyVal.str "", PyVal.str ""]),
      ("gold", PyVal.int 0)] = .ok (.invalid .no_target) ∧
    Reason.no_target ≠ Reason.unparseable := ⟨rfl, by decide⟩

/-- C10 amended: every matching strategy skips falsy (empty-string)
choices, so a document whose resolved ChoiceSet consists only of empty
strings never produces a match — any response is classified `Invalid`
(with reason `unparseable` when the target is truthy, but `no_target`
when the target itself resolves to an empty string); and any matched
(Correct/Wrong) outcome's choice is a non-empty member of the resolved
ChoiceSet. -/
theorem c10_empty_choices_never_match :
    (∀ (resp : String) (doc : PyDict) (chs : List PyVal) (o : Outcome),
      pyIter (get_choices_from_doc doc) = .ok chs →
      (∀ v ∈ chs, pyTruthy v = false) →
      classify resp doc = .ok o → ∃ r, o = .invalid r) ∧
    (∀ (resp : String) (doc : PyDict) (s : String) (strat : Strat),
      (classify resp doc = .ok (.correct s strat) ∨
        classify resp doc = .ok (.wrong s strat)) →
      s ≠ "" ∧ ∃ chs, pyIter (get_choices_from_doc doc) = .ok chs ∧
        PyVal.str s ∈ chs) ∧
    classify "hei" [("choices", PyVal.list [PyVal.str "", PyVal.str ""]),
      ("gold", PyVal.str "x")] = .ok (.invalid .unparseable) ∧
    classify "hei" [("choices", PyVal.list [PyVal.str "", PyVal.str ""]),
      ("gold", PyVal.int 0)] = .ok (.invalid .no_target) := by
  refine ⟨?_, ?_, rfl, rfl⟩
  · intro resp doc chs o hi hfal hcl
    rcases classify_ok_inv resp doc o hcl with ⟨r, hr⟩ |
      ⟨s, strat, chs2, hi2, hmem, hne, _⟩
    · exact ⟨r, hr⟩
    · rw [hi] at hi2
      injection hi2 with hi3
      subst hi3
      have := hfal (PyVal.str s) hmem
      simp [pyTruthy, String.isEmpty_iff] at this
      exact absurd this hne
  · intro resp doc s strat hcl
    rcases hcl with hcl | hcl
    · rcases classify_ok_inv resp doc _ hcl with ⟨r, hr⟩ |
        ⟨s2, strat2, chs, hi, hmem, hne, ho⟩
      · simp at hr
      · rcases ho with ho | ho
        · obtain ⟨hs, hstrat⟩ : s = s2 ∧ strat = strat2 := by
            simpa [Outcome.correct.injEq] using ho
          subst hs
          exact ⟨hne, chs, hi, hmem⟩
        · simp at ho
    · rcases classify_ok_inv resp doc _ hcl with ⟨r, hr⟩ |
        ⟨s2, strat2, chs, hi, hmem, hne, ho⟩
      · simp at hr
      · rcases ho with ho | ho
        · simp at ho
        · obtain ⟨hs, hstrat⟩ : s = s2 ∧ strat = strat2 := by
            simpa [Outcome.wrong.injEq] using ho
          subst hs
          exact ⟨hne, chs, hi, hmem⟩

theorem toNat_ofNat_small (n : Nat) (h : n < 1000) : (Char.ofNat n).toNat = n := by
  have hv : n < 55296 ∨ 57343 < n ∧ n < 1114112 := by omega
  simp [Char.ofNat, hv, Char.ofNatAux, Char.toNat, UInt32.toNat, UInt32.ofNat]

theorem isStripPunct_toNat (c : Char) (h : isStripPunct c = true) :
    c.toNat = 46 ∨ c.toNat = 44 ∨ c.toNat = 33 ∨ c.toNat = 63 ∨
      c.toNat = 59 ∨ c.toNat = 58 := by
  simp [isStripPunct] at h
  rcases h with rfl | rfl | rfl | rfl | rfl | rfl <;> simp

theorem pyLowerChar_idem (c : Char) :
    pyLowerChar (pyLowerChar c) = pyLowerChar c := by
  by_cases h1 : 65 ≤ c.toNat ∧ c.toNat ≤ 90
  · have ht := toNat_ofNat_small (c.toNat + 32) (by omega)
    have he : pyLowerChar c = Char.ofNat (c.toNat + 32) := by
      unfold pyLowerChar
      rw [if_pos h1]
    rw [he]
    unfold pyLowerChar
    rw [if_neg (by omega), if_neg (by rw [ht]; omega)]
  · by_cases h4 : 192 ≤ c.toNat ∧ c.toNat ≤ 222 ∧ c.toNat ≠ 215
    · have ht := toNat_ofNat_small (c.toNat + 32) (by omega)
      have he : pyLowerChar c = Char.ofNat (c.toNat + 32) := by
        unfold pyLowerChar
        rw [if_neg h1, if_pos h4]
      rw [he]
      unfold pyLowerChar
      rw [if_neg (by omega), if_neg (by rw [ht]; omega)]
    · have he : pyLowerChar c = c := by
        unfold pyLowerChar
        rw [if_neg h1, if_neg h4]
      rw [he, he]

theorem pyLowerChar_nonpunct (c : Char) (h : isStripPunct c = false) :
    isStripPunct (pyLowerChar c) = false := by
  by_cases h1 : 65 ≤ c.toNat ∧ c.toNat ≤ 90
  · have ht := toNat_ofNat_small (c.toNat + 32) (by omega)
    have he : pyLowerChar c = Char.ofNat (c.toNat + 32) := by
      unfold pyLowerChar
      rw [if_pos h1]
    rw [he]
    by_contra hp
    simp only [Bool.not_eq_false] at hp
    have h6 := isStripPunct_toNat _ hp
    omega
  · by_cases h4 : 192 ≤ c.toNat ∧ c.toNat ≤ 222 ∧ c.toNat ≠ 215
    · have ht := toNat_ofNat_small (c.toNat + 32) (by omega)
      have he : pyLowerChar c = Char.ofNat (c.toNat + 32) := by
        unfold pyLowerChar
        rw [if_neg h1, if_pos h4]
      rw [he]
      by_contra hp
      simp only [Bool.not_eq_false] at hp
      have h6 := isStripPunct_toNat _ hp
      omega
    · have he : pyLowerChar c = c := by
        unfold pyLowerChar
        rw [if_neg h1, if_neg h4]
      rw [he]
      exact h

theorem splitWsAcc_words (l : List Char) :
    ∀ (acc : List Char), (∀ c ∈ acc, isPySpace c = false) →
      ∀ w ∈ splitWsAcc l acc, w ≠ [] ∧ ∀ c ∈ w, isPySpace c = false := by
  induction l with
  | nil =>
    intro acc hacc w hw
    by_cases ha : acc.isEmpty
    · simp [splitWsAcc, ha] at hw
    · simp [splitWsAcc, ha] at hw
      subst hw
      constructor
      · simpa [List.isEmpty_iff] using ha
      · intro c hc
        exact hacc c (by simpa using hc)
  | cons c cs ih =>
    intro acc hacc w hw
    by_cases hsp : isPySpace c = true
    · by_cases ha : acc.isEmpty
      · rw [splitWsAcc, if_pos hsp, if_pos ha] at hw
        exact ih [] (by simp) w hw
      · rw [splitWsAcc, if_pos hsp, if_neg ha] at hw
        rcases List.mem_cons.mp hw with rfl | hw2
        · constructor
          · simpa [List.isEmpty_iff] using ha
          · intro d hd
            exact hacc d (by simpa using hd)
        · exact ih [] (by simp) w hw2
    · rw [splitWsAcc, if_neg hsp] at hw
      refine ih (c :: acc) ?_ w hw
      intro d hd
      rcases List.mem_cons.mp hd with rfl | hd2
      · simpa using hsp
      · exact hacc d hd2

theorem splitWs_words (l : List Char) (w : List Char) (hw : w ∈ splitWs l) :
    w ≠ [] ∧ ∀ c ∈ w, isPySpace c = false :=
  splitWsAcc_words l [] (by simp) w hw

theorem splitWsAcc_chars (l : List Char) :
    ∀ (acc : List Char) (w : List Char), w ∈ splitWsAcc l acc →
      ∀ c ∈ w, c ∈ l ∨ c ∈ acc := by
  induction l with
  | nil =>
    intro acc w hw c hc
    by_cases ha : acc.isEmpty
    · simp [splitWsAcc, ha] at hw
    · simp [splitWsAcc, ha] at hw
      subst hw
      exact Or.inr (by simpa using hc)
  | cons a cs ih =>
    intro acc w hw c hc
    by_cases hsp : isPySpace a = true
    · by_cases ha : acc.isEmpty
      · rw [splitWsAcc, if_pos hsp, if_pos ha] at hw
        rcases ih [] w hw c hc with h | h
        · exact Or.inl (by simp [h])
        · simp at h
      · rw [splitWsAcc, if_pos hsp, if_neg ha] at hw
        rcases List.mem_cons.mp hw with rfl | hw2
        · exact Or.inr (by simpa using hc)
        · rcases ih [] w hw2 c hc with h | h
          · exact Or.inl (by simp [h])
          · simp at h
    · rw [splitWsAcc, if_neg hsp] at hw
      rcases ih (a :: acc) w hw c hc with h | h
      · exact Or.inl (by simp [h])
      · rcases List.mem_cons.mp h with rfl | h2
        · exact Or.inl (by simp)
        · exact Or.inr h2

theorem joinSpace_chars (W : List (List Char)) (c : Char)
    (hc : c ∈ joinSpace W) : (∃ w ∈ W, c ∈ w) ∨ c = ' ' := by
  induction W with
  | nil => simp [joinSpace] at hc
  | cons w ws ih =>
    match ws with
    | [] =>
      exact Or.inl ⟨w, by simp, by simpa [joinSpace] using hc⟩
    | w2 :: ws2 =>
      rw [show joinSpace (w :: w2 :: ws2) = w ++ ' ' :: joinSpace (w2 :: ws2)
        from rfl] at hc
      rcases List.mem_append.mp hc with h | h
      · exact Or.inl ⟨w, by simp, h⟩
      · rcases List.mem_cons.mp h with rfl | h2
        · exact Or.inr rfl
        · rcases ih h2 with ⟨w3, hw3, hcw3⟩ | h3
          · exact Or.inl ⟨w3, by simp [hw3], hcw3⟩
          · exact Or.inr h3

theorem splitWsAcc_push (w : List Char) (hw : ∀ c ∈ w, isPySpace c = false) :
    ∀ (cs acc : List Char),
      splitWsAcc (w ++ cs) acc = splitWsAcc cs (w.reverse ++ acc) := by
  induction w with
  | nil => intro cs acc; simp
  | cons a w2 ih =>
    intro cs acc
    have ha : isPySpace a = false := hw a (by simp)
    rw [List.cons_append, splitWsAcc, if_neg (by simp [ha])]
    rw [ih (fun c hc => hw c (by simp [hc])) cs (a :: acc)]
    simp

theorem splitWsAcc_allspace (t : List Char) (ht : ∀ c ∈ t, isPySpace c = true) :
    ∀ acc, splitWsAcc t acc = if acc.isEmpty then [] else [acc.reverse] := by
  induction t with
  | nil => intro acc; rw [splitWsAcc]
  | cons a t2 ih =>
    intro acc
    have ha : isPySpace a = true := ht a (by simp)
    by_cases hacc : acc.isEmpty
    · rw [splitWsAcc, if_pos ha, if_pos hacc,
        ih (fun c hc => ht c (by simp [hc])) [], if_pos hacc]
      simp
    · rw [splitWsAcc, if_pos ha, if_neg hacc,
        ih (fun c hc => ht c (by simp [hc])) [], if_neg hacc]
      simp

theorem splitWsAcc_trailspace (t : List Char)
    (ht : ∀ c ∈ t, isPySpace c = true) :
    ∀ (l acc : List Char), splitWsAcc (l ++ t) acc = splitWsAcc l acc := by
  intro l
  induction l with
  | nil =>
    intro acc
    rw [List.nil_append, splitWsAcc_allspace t ht acc, splitWsAcc]
  | cons a l2 ih =>
    intro acc
    by_cases ha : isPySpace a = true
    · by_cases hacc : acc.isEmpty
      · rw [List.cons_append, splitWsAcc, if_pos ha, if_pos hacc,
          splitWsAcc, if_pos ha, if_pos hacc, ih]
      · rw [List.cons_append, splitWsAcc, if_pos ha, if_neg hacc,
          splitWsAcc, if_pos ha, if_neg hacc, ih]
    · rw [List.cons_append, splitWsAcc, if_neg ha, splitWsAcc, if_neg ha, ih]

theorem splitWsAcc_dropLead (l : List Char) :
    splitWsAcc (l.dropWhile isPySpace) [] = splitWsAcc l [] := by
  induction l with
  | nil => rfl
  | cons a l2 ih =>
    by_cases ha : isPySpace a = true
    · rw [List.dropWhile_cons_of_pos ha, ih, splitWsAcc, if_pos ha]
      simp
    · rw [List.dropWhile_cons_of_neg (by simp [ha])]

theorem takeWhile_all (p : Char → Bool) (l : List Char) :
    ∀ c ∈ l.takeWhile p, p c = true := by
  induction l with
  | nil => simp
  | cons a l2 ih =>
    by_cases ha : p a = true
    · rw [List.takeWhile_cons_of_pos ha]
      intro c hc
      rcases List.mem_cons.mp hc with rfl | hc2
      · exact ha
      · exact ih c hc2
    · rw [List.takeWhile_cons_of_neg (by simp [ha])]
      simp

theorem splitWs_stripSpace (l : List Char) :
    splitWs (stripEnds isPySpace l) = splitWs l := by
  unfold splitWs stripEnds
  set m := l.dropWhile isPySpace with hm
  have hdecomp : m = (m.reverse.dropWhile isPySpace).reverse ++
      (m.reverse.takeWhile isPySpace).reverse := by
    rw [← List.reverse_append, List.takeWhile_append_dropWhile, List.reverse_reverse]
  have hts : ∀ c ∈ (m.reverse.takeWhile isPySpace).reverse, isPySpace c = true := by
    intro c hc
    exact takeWhile_all isPySpace m.reverse c (by simpa using hc)
  calc splitWsAcc (m.reverse.dropWhile isPySpace).reverse []
      = splitWsAcc ((m.reverse.dropWhile isPySpace).reverse ++
          (m.reverse.takeWhile isPySpace).reverse) [] := by
        rw [splitWsAcc_trailspace _ hts]
    _ = splitWsAcc m [] := by rw [← hdecomp]
    _ = splitWsAcc l [] := splitWsAcc_dropLead l

theorem splitWs_joinSpace (W : List (List Char))
    (hW : ∀ w ∈ W, w ≠ [] ∧ ∀ c ∈ w, isPySpace c = false) :
    splitWs (joinSpace W) = W := by
  induction W with
  | nil => rfl
  | cons w ws ih =>
    obtain ⟨hne, hsf⟩ := hW w (by simp)
    match ws with
    | [] =>
      show splitWsAcc (joinSpace [w]) [] = [w]
      rw [show joinSpace [w] = w from rfl,
        show (w : List Char) = w ++ [] from by simp,
        splitWsAcc_push w hsf [] []]
      rw [splitWsAcc]
      rw [if_neg (by simpa [List.isEmpty_iff] using hne)]
      simp
    | w2 :: ws2 =>
      show splitWsAcc (joinSpace (w :: w2 :: ws2)) [] = w :: w2 :: ws2
      rw [show joinSpace (w :: w2 :: ws2) = w ++ ' ' :: joinSpace (w2 :: ws2)
        from rfl]
      rw [splitWsAcc_push w hsf (' ' :: joinSpace (w2 :: ws2)) []]
      rw [splitWsAcc, if_pos (by simp [isPySpace])]
      rw [if_neg (by simpa [List.isEmpty_iff] using hne)]
      have ih2 := ih (fun v hv => hW v (by simp [hv]))
      rw [show splitWsAcc (joinSpace (w2 :: ws2)) [] =
        splitWs (joinSpace (w2 :: ws2)) from rfl, ih2]
      simp

theorem stripEnds_eq_self_of_all (p : Char → Bool) (l : List Char)
    (h : ∀ c ∈ l, p c = false) : stripEnds p l = l := by
  unfold stripEnds
  rw [dropWhile_eq_self_of_all p l h,
    dropWhile_eq_self_of_all p l.reverse (fun c hc => h c (by simpa using hc)),
    List.reverse_reverse]

theorem stripEnds_subset (p : Char → Bool) (l : List Char) (c : Char)
    (hc : c ∈ stripEnds p l) : c ∈ l := by
  unfold stripEnds at hc
  rw [List.mem_reverse] at hc
  have h1 := List.dropWhile_sublist (l := (l.dropWhile p).reverse) (p := p)
  have h2 := h1.mem hc
  rw [List.mem_reverse] at h2
  exact (List.dropWhile_sublist (l := l) (p := p)).mem h2

theorem lowerL_eq_self (l : List Char) (h : ∀ c ∈ l, pyLowerChar c = c) :
    lowerL l = l := by
  unfold lowerL
  rw [List.map_congr_left h]
  simp

/-- C4 amended: `strip_special_chars` is idempotent for every input;
`normalize_text` is not idempotent in general (see
`c4_counterexample`) but is idempotent for every input containing no
character of the stripped punctuation set `. , ! ? ; :`. -/
theorem c4_idempotence :
    (∀ l : List Char,
      strip_special_chars (strip_special_chars l) = strip_special_chars l) ∧
    (∀ l : List Char, punctFree l = true →
      normalize_text (normalize_text l) = normalize_text l) := by
  constructor
  · intro l
    simp [strip_special_chars, List.filter_filter]
  · intro l hl
    have hl2 : ∀ c ∈ l, isStripPunct c = false := by
      simpa [punctFree] using hl
    set m := stripEnds isStripPunct (stripEnds isPySpace (lowerL l)) with hm
    set W := splitWs m with hWdef
    have hWprop : ∀ w ∈ W, w ≠ [] ∧ ∀ c ∈ w, isPySpace c = false :=
      fun w hw => splitWs_words m w hw
    have hchars : ∀ c ∈ joinSpace W, c = ' ' ∨ c ∈ lowerL l := by
      intro c hc
      rcases joinSpace_chars W c hc with ⟨w, hw, hcw⟩ | h
      · right
        have h3 := splitWsAcc_chars m [] w hw c hcw
        rcases h3 with h2 | h2
        · exact stripEnds_subset _ _ _ (stripEnds_subset _ _ _ (hm ▸ h2))
        · simp at h2
      · exact Or.inl h
    have hfix : ∀ c ∈ joinSpace W, pyLowerChar c = c := by
      intro c hc
      rcases hchars c hc with rfl | h
      · rfl
      · obtain ⟨c0, hc0, rfl⟩ := List.mem_map.mp h
        exact pyLowerChar_idem c0
    have hnp : ∀ c ∈ joinSpace W, isStripPunct c = false := by
      intro c hc
      rcases hchars c hc with rfl | h
      · decide
      · obtain ⟨c0, hc0, rfl⟩ := List.mem_map.mp h
        exact pyLowerChar_nonpunct c0 (hl2 c0 hc0)
    have hyp : normalize_text l = joinSpace W := rfl
    rw [hyp]
    unfold normalize_text
    rw [lowerL_eq_self (joinSpace W) hfix]
    rw [stripEnds_eq_self_of_all isStripPunct
      (stripEnds isPySpace (joinSpace W))
      (fun c hc => hnp c (stripEnds_subset _ _ _ hc))]
    rw [splitWs_stripSpace (joinSpace W)]
    rw [splitWs_joinSpace W hWprop]

/-- C4 counterexample: `normalize` is not idempotent — for the input
`"a . ."` one pass yields `"a ."` (the trailing strip exposes new
edge punctuation), and a second pass yields `"a"`. -/
theorem c4_counterexample :
    normalize_text (normalize_text "a . .".data) ≠
      normalize_text "a . .".data := by decide

/-- Witness for `c4_idempotence`. -/
theorem c4_idempotence_witness :
    strip_special_chars (strip_special_chars "**a**".data) =
      strip_special_chars "**a**".data ∧
    normalize_text (normalize_text "  Kyllä  ON ".data) =
      normalize_text "  Kyllä  ON ".data :=
  ⟨c4_idempotence.1 "**a**".data,
    c4_idempotence.2 "  Kyllä  ON ".data (by decide)⟩

/-- C1: the embedded cascade equals the spec's priority-ordered
first-success scan of the six strategies for every first line and every
string choice list; and on the response "kyllä on oikea vastaus" with
choices ["kyllä", "ei"] the substring strategy (the first) finds
"kyllä", so the cascade returns it tagged `substring_match` — no later
strategy runs. -/
theorem c1_cascade_priority :
    (∀ (line : List Char) (chs : List String),
      matchCascade line (chs.map PyVal.str) = .ok (cascadeSpec line chs)) ∧
    matchCascade "kyllä on oikea vastaus".data
      [PyVal.str "kyllä", PyVal.str "ei"] =
      .ok (some ("kyllä", .substring_match)) ∧
    ["kyllä", "ei"].find? (qualSub (lowerL "kyllä on oikea vastaus".data)) =
      some "kyllä" :=
  ⟨matchCascade_eq_spec, rfl, rfl⟩

/-- Witness for `c10_empty_choices_never_match`. -/
theorem c10_empty_choices_never_match_witness :
    ∃ r, Outcome.invalid Reason.unparseable = Outcome.invalid r :=
  c10_empty_choices_never_match.1 "hei"
    [("choices", PyVal.list [PyVal.str "", PyVal.str ""]),
      ("gold", PyVal.str "x")]
    [PyVal.str "", PyVal.str ""] (Outcome.invalid .unparseable) rfl
    (by decide) rfl

/-- C8 counterexample: the bold strategy iterates bold spans in the
outer loop and choices in the inner loop, so with spans
`["punaisen", "sinisen"]` and choices `["sininen", "punainen"]`
(choice 1 qualifying only via span 2, choice 2 via span 1) the engine
returns choice 2 `"punainen"`, not the earlier ChoiceSet member
`"sininen"` as the claim states. -/
theorem c8_counterexample :
    matchCascade "**punaisen** vai **sinisen**".data
      [PyVal.str "sininen", PyVal.str "punainen"] =
      .ok (some ("punainen", .bold_match)) ∧
    "punainen" ≠ "sininen" := ⟨rfl, by decide⟩

/-- C8 amended: within the substring and stem strategies (and, per
`c1_cascade_priority`, strategies 1-4 and 6 generally) the ChoiceSet is
scanned in its given order and the first qualifying choice wins
(`List.find?`); the bold strategy scans in span-major order — spans
outer, choices inner — so in the two-span scenario choice 2, qualifying
via the first span, is returned. -/
theorem c8_scan_order :
    (∀ (x : List Char) (chs : List String),
      strat1 x (chs.map PyVal.str) = .ok (chs.find? (qualSub x))) ∧
    (∀ (x : List Char) (chs : List String),
      strat6 x (chs.map PyVal.str) = .ok (chs.find? (qualStem x))) ∧
    (∀ (chs : List String) (bws : List (List Char)),
      strat5 (chs.map PyVal.str) bws =
        .ok (bws.findSome? (fun bw => chs.find? (qualBold bw)))) ∧
    matchCascade "**punaisen** vai **sinisen**".data
      [PyVal.str "sininen", PyVal.str "punainen"] =
      .ok (some ("punainen", .bold_match)) :=
  ⟨strat1_pure, strat6_pure, strat5_pure, rfl⟩

def statsInvariant (st : Stats) : Prop :=
  st.total = st.correct + st.wrong + st.invalid ∧
  st.empty_response + st.no_choices + st.no_target ≤ st.invalid

theorem updStats_inv (st : Stats) (o : Outcome) (h : statsInvariant st) :
    statsInvariant (updStats st o) := by
  obtain ⟨h1, h2⟩ := h
  rcases o with ⟨s, σ⟩ | ⟨s, σ⟩ | r
  · exact ⟨by simp [updStats]; omega, by simp [updStats]; omega⟩
  · exact ⟨by simp [updStats]; omega, by simp [updStats]; omega⟩
  · rcases r with _ | _ | _ | _ <;>
      exact ⟨by simp [updStats]; omega, by simp [updStats]; omega⟩

theorem extract_ok_inv (st : Stats) (ss : StratStats) (resp : String)
    (doc : PyDict) (s : String) (st2 : Stats) (ss2 : StratStats)
    (h : extract_and_validate st ss resp doc = .ok (s, st2, ss2)) :
    ∃ o, classify resp doc = .ok o ∧ s = outcomeStr o ∧
      st2 = updStats st o ∧ ss2 = updStratStats ss o := by
  unfold extract_and_validate at h
  cases hc : classify resp doc with
  | error e => simp [hc, bind, Except.bind] at h
  | ok o =>
    refine ⟨o, rfl, ?_, ?_, ?_⟩ <;>
      · have h2 := h
        simp [hc, bind, Except.bind, pure, Except.pure] at h2
        simp [h2.1, h2.2.1, h2.2.2]

theorem updStats_step (st : Stats) (o : Outcome) :
    (updStats st o).total = st.total + 1 ∧
    (updStats st o).correct + (updStats st o).wrong + (updStats st o).invalid =
      st.correct + st.wrong + st.invalid + 1 := by
  rcases o with ⟨s, σ⟩ | ⟨s, σ⟩ | r
  · simp [updStats]; omega
  · simp [updStats]; omega
  · rcases r with _ | _ | _ | _ <;> (simp [updStats]; omega)

theorem applyDoc_statsInv (doc : PyDict) :
    ∀ (rs : List String) (st : Stats) (ss : StratStats) (out : List String)
      (st2 : Stats) (ss2 : StratStats),
      applyDoc st ss doc rs = .ok (out, st2, ss2) →
      statsInvariant st → statsInvariant st2 := by
  intro rs
  induction rs with
  | nil =>
    intro st ss out st2 ss2 h hinv
    obtain ⟨h1, h2, h3⟩ : out = [] ∧ st2 = st ∧ ss2 = ss := by
      simpa [applyDoc, pure, Except.pure] using h.symm
    exact h2 ▸ hinv
  | cons r rs2 ih =>
    intro st ss out st2 ss2 h hinv
    unfold applyDoc at h
    cases he : extract_and_validate st ss r doc with
    | error e => simp [he, bind, Except.bind] at h
    | ok tri =>
      obtain ⟨s, stA, ssA⟩ := tri
      cases hd : applyDoc stA ssA doc rs2 with
      | error e => simp [he, hd, bind, Except.bind] at h
      | ok tri2 =>
        obtain ⟨outR, stB, ssB⟩ := tri2
        obtain ⟨o, hco, hso, hstA, hssA⟩ := extract_ok_inv _ _ _ _ _ _ _ he
        have hinvA : statsInvariant stA := hstA ▸ updStats_inv st o hinv
        have hB := ih stA ssA outR stB ssB hd hinvA
        obtain ⟨h1, h2, h3⟩ : s :: outR = out ∧ stB = st2 ∧ ssB = ss2 := by
          simpa [he, hd, bind, Except.bind, pure, Except.pure] using h
        exact h2 ▸ hB

theorem applyZipped_statsInv :
    ∀ (pairs : List (List String × PyDict)) (st : Stats) (ss : StratStats)
      (outs : List (List String)) (st2 : Stats) (ss2 : StratStats),
      applyZipped st ss pairs = .ok (outs, st2, ss2) →
      statsInvariant st → statsInvariant st2 := by
  intro pairs
  induction pairs with
  | nil =>
    intro st ss outs st2 ss2 h hinv
    obtain ⟨h1, h2, h3⟩ : outs = [] ∧ st2 = st ∧ ss2 = ss := by
      simpa [applyZipped, pure, Except.pure] using h.symm
    exact h2 ▸ hinv
  | cons p rest ih =>
    intro st ss outs st2 ss2 h hinv
    obtain ⟨rs, doc⟩ := p
    unfold applyZipped at h
    cases hd : applyDoc st ss doc rs with
    | error e => simp [hd, bind, Except.bind] at h
    | ok tri =>
      obtain ⟨out1, stA, ssA⟩ := tri
      cases hz : applyZipped stA ssA rest with
      | error e => simp [hd, hz, bind, Except.bind] at h
      | ok tri2 =>
        obtain ⟨outR, stB, ssB⟩ := tri2
        have hinvA := applyDoc_statsInv doc rs st ss out1 stA ssA hd hinv
        have hB := ih stA ssA outR stB ssB hz hinvA
        obtain ⟨h1, h2, h3⟩ : out1 :: outR = outs ∧ stB = st2 ∧ ssB = ss2 := by
          simpa [hd, hz, bind, Except.bind, pure, Except.pure] using h
        exact h2 ▸ hB

/-- C2: for the v2 engine, after any successful run from freshly
initialised counters, `total = correct + wrong + invalid` and `invalid`
equals the sum of its reported breakdown (`empty_response + no_choices +
no_target + unparseable`, with `unparseable` computed as the code's
summary does); every processed response increments `total` exactly once
and exactly one of correct/wrong/invalid exactly once.  The last two
conjuncts exhibit the v1 bug: the v1 engine processing one empty
response leaves `total = 0` while `invalid = 1`, so its
`total = correct + wrong + invalid` fails (0 ≠ 0 + 0 + 1). -/
theorem c2_stats_invariant :
    (∀ (resps : List (List String)) (docs : List PyDict)
      (out : List (List String)) (st : Stats) (ss : StratStats),
      applyFilter Stats.init StratStats.init resps docs = .ok (out, st, ss) →
      st.total = st.correct + st.wrong + st.invalid ∧
      st.invalid = st.empty_response + st.no_choices + st.no_target +
        (st.invalid - st.empty_response - st.no_choices - st.no_target)) ∧
    (∀ (st : Stats) (ss : StratStats) (resp : String) (doc : PyDict)
      (s : String) (st2 : Stats) (ss2 : StratStats),
      extract_and_validate st ss resp doc = .ok (s, st2, ss2) →
      st2.total = st.total + 1 ∧
      st2.correct + st2.wrong + st2.invalid =
        st.correct + st.wrong + st.invalid + 1) ∧
    extractV1 StatsV1.init "" [] = .ok ("", ⟨0, 0, 0, 1, 1, 0⟩) ∧
    (0 : Nat) ≠ 0 + 0 + 1 := by
  refine ⟨?_, ?_, rfl, by decide⟩
  · intro resps docs out st ss h
    have hinv := applyZipped_statsInv (resps.zip docs) _ _ _ _ _ h
      ⟨rfl, by simp [Stats.init]⟩
    obtain ⟨h1, h2⟩ := hinv
    exact ⟨h1, by omega⟩
  · intro st ss resp doc s st2 ss2 h
    obtain ⟨o, _, _, hst2, _⟩ := extract_ok_inv _ _ _ _ _ _ _ h
    exact hst2 ▸ updStats_step st o

/-- Witness for `c2_stats_invariant`: a one-response run. -/
theorem c2_stats_invariant_witness :
    ((⟨1, 1, 0, 0, 0, 0, 0, 0⟩ : Stats).total =
      (⟨1, 1, 0, 0, 0, 0, 0, 0⟩ : Stats).correct +
      (⟨1, 1, 0, 0, 0, 0, 0, 0⟩ : Stats).wrong +
      (⟨1, 1, 0, 0, 0, 0, 0, 0⟩ : Stats).invalid) ∧
    ((⟨1, 1, 0, 0, 0, 0, 0, 0⟩ : Stats).invalid =
      (⟨1, 1, 0, 0, 0, 0, 0, 0⟩ : Stats).empty_response +
      (⟨1, 1, 0, 0, 0, 0, 0, 0⟩ : Stats).no_choices +
      (⟨1, 1, 0, 0, 0, 0, 0, 0⟩ : Stats).no_target +
      ((⟨1, 1, 0, 0, 0, 0, 0, 0⟩ : Stats).invalid -
        (⟨1, 1, 0, 0, 0, 0, 0, 0⟩ : Stats).empty_response -
        (⟨1, 1, 0, 0, 0, 0, 0, 0⟩ : Stats).no_choices -
        (⟨1, 1, 0, 0, 0, 0, 0, 0⟩ : Stats).no_target)) :=
  c2_stats_invariant.1 [["kyllä"]]
    [[("choices", PyVal.list [PyVal.str "kyllä", PyVal.str "ei"]),
      ("gold", PyVal.str "kyllä")]]
    [["kyllä"]] ⟨1, 1, 0, 0, 0, 0, 0, 0⟩ ⟨1, 0, 0, 0, 0, 0, 0⟩ rfl

theorem applyDoc_spec (doc : PyDict) :
    ∀ (rs : List String) (st : Stats) (ss : StratStats) (out : List String)
      (st2 : Stats) (ss2 : StratStats),
      applyDoc st ss doc rs = .ok (out, st2, ss2) →
      out.length = rs.length ∧
      ∀ e ∈ out, e = "" ∨ ∃ chs, pyIter (get_choices_from_doc doc) = .ok chs ∧
        PyVal.str e ∈ chs := by
  intro rs
  induction rs with
  | nil =>
    intro st ss out st2 ss2 h
    obtain ⟨h1, h2, h3⟩ : out = [] ∧ st2 = st ∧ ss2 = ss := by
      simpa [applyDoc, pure, Except.pure] using h.symm
    subst h1
    simp
  | cons r rs2 ih =>
    intro st ss out st2 ss2 h
    unfold applyDoc at h
    cases he : extract_and_validate st ss r doc with
    | error e => simp [he, bind, Except.bind] at h
    | ok tri =>
      obtain ⟨s, stA, ssA⟩ := tri
      cases hd : applyDoc stA ssA doc rs2 with
      | error e => simp [he, hd, bind, Except.bind] at h
      | ok tri2 =>
        obtain ⟨outR, stB, ssB⟩ := tri2
        obtain ⟨h1, h2, h3⟩ : s :: outR = out ∧ stB = st2 ∧ ssB = ss2 := by
          simpa [he, hd, bind, Except.bind, pure, Except.pure] using h
        subst h1
        obtain ⟨hlen, hmem⟩ := ih stA ssA outR stB ssB hd
        refine ⟨by simp [hlen], ?_⟩
        intro e hme
        rcases List.mem_cons.mp hme with rfl | hme2
        · obtain ⟨o, hco, hso, _, _⟩ := extract_ok_inv _ _ _ _ _ _ _ he
          rcases classify_ok_inv _ _ _ hco with ⟨rr, hrr⟩ |
            ⟨s2, strat2, chs, hi, hmem2, hne, ho⟩
          · subst hrr
            exact Or.inl (by simp [hso, outcomeStr])
          · rcases ho with ho | ho <;> subst ho
            · exact Or.inr ⟨chs, hi, by simpa [hso, outcomeStr] using hmem2⟩
            · exact Or.inr ⟨chs, hi, by simpa [hso, outcomeStr] using hmem2⟩
        · exact hmem e hme2

theorem applyZipped_spec :
    ∀ (pairs : List (List String × PyDict)) (st : Stats) (ss : StratStats)
      (outs : List (List String)) (st2 : Stats) (ss2 : StratStats),
      applyZipped st ss pairs = .ok (outs, st2, ss2) →
      outs.length = pairs.length ∧
      ∀ q ∈ outs.zip pairs,
        q.1.length = q.2.1.length ∧
        ∀ e ∈ q.1, e = "" ∨ ∃ chs,
          pyIter (get_choices_from_doc q.2.2) = .ok chs ∧
            PyVal.str e ∈ chs := by
  intro pairs
  induction pairs with
  | nil =>
    intro st ss outs st2 ss2 h
    obtain ⟨h1, h2, h3⟩ : outs = [] ∧ st2 = st ∧ ss2 = ss := by
      simpa [applyZipped, pure, Except.pure] using h.symm
    subst h1
    simp
  | cons p rest ih =>
    intro st ss outs st2 ss2 h
    obtain ⟨rs, doc⟩ := p
    unfold applyZipped at h
    cases hd : applyDoc st ss doc rs with
    | error e => simp [hd, bind, Except.bind] at h
    | ok tri =>
      obtain ⟨out1, stA, ssA⟩ := tri
      cases hz : applyZipped stA ssA rest with
      | error e => simp [hd, hz, bind, Except.bind] at h
      | ok tri2 =>
        obtain ⟨outR, stB, ssB⟩ := tri2
        obtain ⟨h1, h2, h3⟩ : out1 :: outR = outs ∧ stB = st2 ∧ ssB = ss2 := by
          simpa [hd, hz, bind, Except.bind, pure, Except.pure] using h
        subst h1
        obtain ⟨hlenR, hmemR⟩ := ih stA ssA outR stB ssB hz
        obtain ⟨hlen1, hmem1⟩ := applyDoc_spec doc rs st ss out1 stA ssA hd
        refine ⟨by simp [hlenR], ?_⟩
        intro q hq
        rcases List.mem_cons.mp hq with rfl | hq2
        · exact ⟨hlen1, hmem1⟩
        · exact hmemR q hq2

/-- C9: when the response list and the document list have equal length,
the filter's output is aligned 1:1 — same outer length, and for each
(output row, responses, document) triple the inner lengths agree and
every entry is either the empty string or a verbatim member of that
document's resolved ChoiceSet. -/
theorem c9_output_alignment (st : Stats) (ss : StratStats)
    (resps : List (List String)) (docs : List PyDict)
    (out : List (List String)) (st2 : Stats) (ss2 : StratStats)
    (hlen : resps.length = docs.length)
    (h : applyFilter st ss resps docs = .ok (out, st2, ss2)) :
    out.length = resps.length ∧
    ∀ q ∈ out.zip (resps.zip docs),
      q.1.length = q.2.1.length ∧
      ∀ e ∈ q.1, e = "" ∨ ∃ chs,
        pyIter (get_choices_from_doc q.2.2) = .ok chs ∧ PyVal.str e ∈ chs := by
  obtain ⟨h1, h2⟩ := applyZipped_spec (resps.zip docs) st ss out st2 ss2 h
  refine ⟨?_, h2⟩
  rw [h1, List.length_zip, hlen, Nat.min_self]

/-- Witness for `c9_output_alignment`: a two-document batch with a
correct response, an empty response and an unparseable response. -/
theorem c9_output_alignment_witness :
    ([["kyllä"], ["", ""]] : List (List String)).length =
      ([["kyllä"], ["", "miksi?"]] : List (List String)).length ∧
    ∀ q ∈ ([["kyllä"], ["", ""]] : List (List String)).zip
        (([["kyllä"], ["", "miksi?"]] : List (List String)).zip
          ([[("choices", PyVal.list [PyVal.str "kyllä", PyVal.str "ei"]),
              ("gold", PyVal.str "kyllä")],
            [("choices", PyVal.list [PyVal.str "A", PyVal.str "B"]),
              ("answer_idx", PyVal.int 0)]] : List PyDict)),
      q.1.length = q.2.1.length ∧
      ∀ e ∈ q.1, e = "" ∨ ∃ chs,
        pyIter (get_choices_from_doc q.2.2) = .ok chs ∧ PyVal.str e ∈ chs :=
  c9_output_alignment Stats.init StratStats.init
    [["kyllä"], ["", "miksi?"]]
    [[("choices", PyVal.list [PyVal.str "kyllä", PyVal.str "ei"]),
        ("gold", PyVal.str "kyllä")],
      [("choices", PyVal.list [PyVal.str "A", PyVal.str "B"]),
        ("answer_idx", PyVal.int 0)]]
    [["kyllä"], ["", ""]] ⟨3, 1, 0, 2, 1, 0, 0, 0⟩ ⟨1, 0, 0, 0, 0, 0, 2⟩
    rfl rfl

end FinBench
